import Mathlib

/-!
Verification of the Agentic-ClaritAI core text-to-structure algorithms.

This file shallowly embeds the pure parts of the repository
(`tools/spec.py`, `tools/flow_templates.py`, `tools/auto_fix.py`,
`notification_agent.py`, `requirements_agent.py`, and the `try_parse`
helper of `graph.py`) as executable Lean definitions over `List Char`
and `String`, and proves or refutes the frozen claims about them.

Modelling conventions:
- Python `str` values are modelled as `String` / `List Char`.
- Decoded JSON values (the result of `json.loads`) are modelled by the
  inductive type `Json`; JSON numbers are modelled as integers (the
  repository only ever produces or consumes integral numbers).
- Fallible Python code (code that can raise) is modelled with
  `Except String`; the error string is a human-readable stand-in for the
  exception message.
- Python truthiness, `dict.get`, `or`-chains and `in` are modelled by
  `jTruthy`, `aGetD`, `pyOrJ` and the `containsSub` substring test.
-/

/-- Characters treated as whitespace by Python `str.strip` and `\s`. -/
def pyIsSpace (c : Char) : Bool :=
  c == ' ' || c == '\t' || c == '\n' || c == '\r' || c == '\x0b' || c == '\x0c'

/-- `startsWithL pat s` is true when `pat` is a prefix of `s`. -/
def startsWithL : List Char → List Char → Bool
  | [], _ => true
  | _ :: _, [] => false
  | p :: ps, c :: cs => p == c && startsWithL ps cs

/-- `endsWithL pat s` is true when `pat` is a suffix of `s`. -/
def endsWithL (pat s : List Char) : Bool :=
  startsWithL pat.reverse s.reverse

/-- Split `s` at the first occurrence of `pat`: returns the part before
the occurrence and the part after it.  `none` when `pat` does not occur.
Models Python `str.find` based splitting. -/
def splitFirst (pat : List Char) : List Char → Option (List Char × List Char)
  | [] => if startsWithL pat [] then some ([], []) else none
  | c :: cs =>
    if startsWithL pat (c :: cs) then some ([], (c :: cs).drop pat.length)
    else
      match splitFirst pat cs with
      | some (a, b) => some (c :: a, b)
      | none => none

/-- Python `pat in s` substring test. -/
def containsSub (pat s : List Char) : Bool :=
  (splitFirst pat s).isSome

/-- Python `s.replace(pat, repl, 1)`. -/
def replaceFirst (pat repl s : List Char) : List Char :=
  match splitFirst pat s with
  | some (a, b) => a ++ repl ++ b
  | none => s

/-- Python `s.replace(pat, repl)` (replace all, left to right), with
explicit fuel; `fuel = s.length + 1` always suffices. -/
def replaceAllAux (pat repl : List Char) : Nat → List Char → List Char
  | 0, s => s
  | fuel + 1, s =>
    match splitFirst pat s with
    | none => s
    | some (a, b) => a ++ repl ++ replaceAllAux pat repl fuel b

/-- Python `s.replace(pat, repl)` for a non-empty pattern. -/
def replaceAll (pat repl s : List Char) : List Char :=
  replaceAllAux pat repl (s.length + 1) s

/-- Python `str.strip()`. -/
def pyStripL (s : List Char) : List Char :=
  ((s.dropWhile pyIsSpace).reverse.dropWhile pyIsSpace).reverse

/-- Python `str.split(sep)` for a single-character separator: always
returns at least one (possibly empty) segment. -/
def splitOnCharL (sep : Char) : List Char → List (List Char)
  | [] => [[]]
  | c :: cs =>
    if c == sep then [] :: splitOnCharL sep cs
    else
      match splitOnCharL sep cs with
      | [] => [[c]]
      | seg :: rest => (c :: seg) :: rest

/-- ASCII lower-casing of one character, as used by Python `str.lower`
on the repository's ASCII data. -/
def pyToLower (c : Char) : Char :=
  if 'A' ≤ c && c ≤ 'Z' then Char.ofNat (c.toNat + 32) else c

/-- Python `str.lower()` (ASCII fragment). -/
def pyLowerL (s : List Char) : List Char := s.map pyToLower

/-- Case-insensitive prefix test (both sides lowered). -/
def ciStartsWith (pat s : List Char) : Bool :=
  startsWithL (pyLowerL pat) (pyLowerL s)

/-- String wrapper for `containsSub`. -/
def strContains (pat s : String) : Bool := containsSub pat.data s.data

/-- String wrapper for `startsWithL`. -/
def strStarts (pat s : String) : Bool := startsWithL pat.data s.data

/-- Decoded JSON values (`json.loads` results).  Numbers are modelled as
integers: every number the repository produces or consumes is integral. -/
inductive Json where
  | null
  | bool (b : Bool)
  | num (n : Int)
  | str (s : String)
  | arr (elems : List Json)
  | obj (fields : List (String × Json))

/-- Python truthiness of a decoded JSON value. -/
def jTruthy : Json → Bool
  | .null => false
  | .bool b => b
  | .num n => n != 0
  | .str s => s != ""
  | .arr es => !es.isEmpty
  | .obj fs => !fs.isEmpty

/-- Python `a or b` on decoded JSON values. -/
def pyOrJ (a b : Json) : Json := if jTruthy a then a else b

/-- Association-list lookup, modelling Python `dict.__getitem__` /
`dict.get` on the first (unique) binding of a key. -/
def aLookup (k : String) : List (String × Json) → Option Json
  | [] => none
  | (k2, v) :: rest => if k2 = k then some v else aLookup k rest

/-- Python `d.get(k, dflt)`. -/
def aGetD (kvs : List (String × Json)) (k : String) (dflt : Json) : Json :=
  (aLookup k kvs).getD dflt

/-- Python `k in d`. -/
def aMem (k : String) (kvs : List (String × Json)) : Bool :=
  (aLookup k kvs).isSome

/-- Python `d[k] = v`: update the first binding in place, or append a new
binding (Python dicts keep the original insertion position on update). -/
def aUpdate (k : String) (v : Json) : List (String × Json) → List (String × Json)
  | [] => [(k, v)]
  | (k2, w) :: rest => if k2 = k then (k2, v) :: rest else (k2, w) :: aUpdate k v rest

/-- Python `v == s` where `s` is a `str` literal: only string values can
compare equal to a string. -/
def pyEqStr (v : Json) (s : String) : Bool :=
  match v with
  | .str t => t == s
  | _ => false

/-- Remove the (unique) binding of a key. -/
def aRemove (k : String) : List (String × Json) → List (String × Json)
  | [] => []
  | (k2, v) :: rest => if k2 = k then rest else (k2, v) :: aRemove k rest

/-- JSON structural whitespace accepted by `json.loads`. -/
def jsonWs (c : Char) : Bool :=
  c == ' ' || c == '\t' || c == '\n' || c == '\r'

/-- Skip JSON structural whitespace. -/
def skipWs (s : List Char) : List Char := s.dropWhile jsonWs

/-- Hexadecimal digit value (by code point: digits, then both letter
ranges). -/
def hexVal (c : Char) : Option Nat :=
  let n := c.toNat
  if 48 ≤ n ∧ n ≤ 57 then some (n - 48)
  else if 97 ≤ n ∧ n ≤ 102 then some (n - 87)
  else if 65 ≤ n ∧ n ≤ 70 then some (n - 55)
  else none

/-- Single-character JSON string escapes (escape letter to decoded
character). -/
def escChar : Char → Option Char
  | 'n' => some '\n'
  | 't' => some '\t'
  | 'r' => some '\r'
  | '"' => some '"'
  | '\\' => some '\\'
  | '/' => some '/'
  | 'b' => some '\x08'
  | 'f' => some '\x0c'
  | _ => none

/-- Parse the remainder of a JSON string literal (after the opening
quote): returns the decoded characters and the input after the closing
quote. -/
def parseStrChars : List Char → Except String (List Char × List Char)
  | [] => .error "Unterminated string"
  | c :: cs =>
    if c == '"' then .ok ([], cs)
    else if c == '\\' then
      match cs with
      | [] => .error "Unterminated escape"
      | e :: cs2 =>
        if e == 'u' then
          match cs2 with
          | h1 :: h2 :: h3 :: h4 :: cs3 =>
            match hexVal h1, hexVal h2, hexVal h3, hexVal h4 with
            | some a, some b, some c2, some d =>
              match parseStrChars cs3 with
              | .ok (out, rest) =>
                let hi := a * 16 + b
                let lo := c2 * 16 + d
                .ok (Char.ofNat (hi * 256 + lo) :: out, rest)
              | .error e2 => .error e2
            | _, _, _, _ => .error "Invalid hex escape"
          | _ => .error "Invalid hex escape"
        else
          match escChar e with
          | some ec =>
            match parseStrChars cs2 with
            | .ok (out, rest) => .ok (ec :: out, rest)
            | .error e2 => .error e2
          | none => .error "Invalid escape"
    else
      match parseStrChars cs with
      | .ok (out, rest) => .ok (c :: out, rest)
      | .error e2 => .error e2

/-- Decimal digits to a natural number. -/
def digitsToNat (ds : List Char) : Nat :=
  ds.foldl (fun acc c => acc * 10 + (c.toNat - '0'.toNat)) 0

/-- Parse a JSON number.  The model only supports integers; a fraction
or exponent part is rejected (the repository never produces them). -/
def parseNumber (s : List Char) : Except String (Int × List Char) :=
  let (neg, s1) :=
    match s with
    | '-' :: rest => (true, rest)
    | _ => (false, s)
  let ds := s1.takeWhile (fun c => '0' ≤ c && c ≤ '9')
  let rest := s1.dropWhile (fun c => '0' ≤ c && c ≤ '9')
  if ds.isEmpty then .error "Expecting value"
  else if ds.length > 1 && ds.headD ' ' == '0' then .error "Leading zero"
  else
    match rest with
    | '.' :: _ => .error "Non-integral number (outside model scope)"
    | 'e' :: _ => .error "Non-integral number (outside model scope)"
    | 'E' :: _ => .error "Non-integral number (outside model scope)"
    | _ =>
      let n : Int := Int.ofNat (digitsToNat ds)
      .ok (if neg then -n else n, rest)

mutual

/-- Parse one JSON value (with fuel); models the recursive descent of
`json.loads`. -/
def parseVal : Nat → List Char → Except String (Json × List Char)
  | 0, _ => .error "Out of fuel"
  | fuel + 1, s =>
    match skipWs s with
    | [] => .error "Expecting value"
    | c :: cs =>
      if c == '\x7b' then parseObjBody fuel cs
      else if c == '[' then parseArrBody fuel cs
      else if c == '"' then
        match parseStrChars cs with
        | .ok (out, rest) => .ok (.str (String.mk out), rest)
        | .error e => .error e
      else if startsWithL "true".data (c :: cs) then .ok (.bool true, (c :: cs).drop 4)
      else if startsWithL "false".data (c :: cs) then .ok (.bool false, (c :: cs).drop 5)
      else if startsWithL "null".data (c :: cs) then .ok (.null, (c :: cs).drop 4)
      else
        match parseNumber (c :: cs) with
        | .ok (n, rest) => .ok (.num n, rest)
        | .error e => .error e

/-- Parse an array body (after `[`). -/
def parseArrBody : Nat → List Char → Except String (Json × List Char)
  | 0, _ => .error "Out of fuel"
  | fuel + 1, s =>
    match skipWs s with
    | ']' :: rest => .ok (.arr [], rest)
    | s2 =>
      match parseArrElems fuel s2 with
      | .ok (es, rest) => .ok (.arr es, rest)
      | .error e => .error e

/-- Parse one-or-more comma-separated array elements, up to `]`. -/
def parseArrElems : Nat → List Char → Except String (List Json × List Char)
  | 0, _ => .error "Out of fuel"
  | fuel + 1, s =>
    match parseVal fuel s with
    | .error e => .error e
    | .ok (v, r) =>
      match skipWs r with
      | ']' :: t => .ok ([v], t)
      | ',' :: t =>
        match parseArrElems fuel t with
        | .ok (vs, rest) => .ok (v :: vs, rest)
        | .error e => .error e
      | _ => .error "Expecting comma or bracket"

/-- Parse an object body (after the opening brace).  Duplicate keys take
the last value while keeping the first position, as in Python dicts. -/
def parseObjBody : Nat → List Char → Except String (Json × List Char)
  | 0, _ => .error "Out of fuel"
  | fuel + 1, s =>
    match skipWs s with
    | '\x7d' :: rest => .ok (.obj [], rest)
    | s2 =>
      match parseObjFields fuel s2 with
      | .ok (fs, rest) => .ok (.obj fs, rest)
      | .error e => .error e

/-- Parse one-or-more comma-separated object members, up to the closing
brace. -/
def parseObjFields : Nat → List Char → Except String (List (String × Json) × List Char)
  | 0, _ => .error "Out of fuel"
  | fuel + 1, s =>
    match skipWs s with
    | '"' :: cs =>
      match parseStrChars cs with
      | .error e => .error e
      | .ok (kchars, r1) =>
        match skipWs r1 with
        | ':' :: r2 =>
          match parseVal fuel r2 with
          | .error e => .error e
          | .ok (v, r3) =>
            match skipWs r3 with
            | '\x7d' :: t => .ok ([(String.mk kchars, v)], t)
            | ',' :: t =>
              match parseObjFields fuel t with
              | .ok (fs, rest) =>
                let k := String.mk kchars
                .ok ((k, aGetD fs k v) :: aRemove k fs, rest)
              | .error e => .error e
            | _ => .error "Expecting comma or brace"
        | _ => .error "Expecting colon"
    | _ => .error "Expecting property name"

end

/-- Python `json.loads`: parse a full document, allowing only whitespace
around the single top-level value. -/
def pyJsonLoads (txt : String) : Except String Json :=
  match parseVal (txt.data.length + 2) txt.data with
  | .error e => .error e
  | .ok (v, rest) =>
    if (skipWs rest).isEmpty then .ok v else .error "Extra data"

/-- First index of a character (Python `str.find`, as an `Option`). -/
def findIdxChar (c : Char) (s : List Char) : Option Nat :=
  s.findIdx? (· == c)

/-- Last index of a character (Python `str.rfind`, as an `Option`). -/
def rfindIdxChar (c : Char) (s : List Char) : Option Nat :=
  match (s.reverse.findIdx? (· == c)) with
  | some i => some (s.length - 1 - i)
  | none => none

/-- The `try_parse` helper of `graph.py` (`_plan_node`): slice the text
from the first brace to the last brace when both exist in that order,
then attempt `json.loads`, returning `none` on any parse error. -/
def try_parse (txt : String) : Option Json :=
  let s := txt.data
  let sliced :=
    match findIdxChar '\x7b' s, rfindIdxChar '\x7d' s with
    | some a, some b => if a < b then (s.drop a).take (b + 1 - a) else s
    | _, _ => s
  match pyJsonLoads (String.mk sliced) with
  | .ok v => some v
  | .error _ => none

/-- Python `repr` of a string (printable-ASCII fragment): single quotes
unless the string holds a single quote and no double quote. -/
def pyReprStr (s : String) : String :=
  let q : Char :=
    if containsSub ['\x27'] s.data && !(containsSub ['"'] s.data) then '"' else '\x27'
  let body := s.data.foldr
    (fun c acc =>
      if c == '\\' then '\\' :: '\\' :: acc
      else if c == q then '\\' :: q :: acc
      else if c == '\n' then '\\' :: 'n' :: acc
      else if c == '\r' then '\\' :: 'r' :: acc
      else if c == '\t' then '\\' :: 't' :: acc
      else c :: acc) []
  String.mk (q :: body ++ [q])

mutual

/-- Python `repr` of a decoded JSON value (used by `str` on containers). -/
def pyRepr : Json → String
  | .null => "None"
  | .bool b => if b then "True" else "False"
  | .num n => toString n
  | .str s => pyReprStr s
  | .arr es => "[" ++ String.intercalate ", " (pyReprList es) ++ "]"
  | .obj fs => "\x7b" ++ String.intercalate ", " (pyReprFields fs) ++ "\x7d"

/-- `repr` mapped over a list of values. -/
def pyReprList : List Json → List String
  | [] => []
  | v :: vs => pyRepr v :: pyReprList vs

/-- `repr` mapped over the members of a dict. -/
def pyReprFields : List (String × Json) → List String
  | [] => []
  | (k, v) :: fs => (pyReprStr k ++ ": " ++ pyRepr v) :: pyReprFields fs

end

/-- Python `str()` of a decoded JSON value (as used by f-strings). -/
def pyStr : Json → String
  | .str s => s
  | v => pyRepr v

/-- A Redmine project as listed by `list_redmine_projects` (only the two
fields the agent reads). -/
structure Project where
  id : Int
  name : String

/-- Python `str.lower` on `String`. -/
def pyLower (s : String) : String := String.mk (pyLowerL s.data)

/-- `RequirementsAgent.get_project_by_name`: exact case-insensitive match
first, then the first case-insensitive substring match, else `None`. -/
def get_project_by_name (projects : List Project) (name : String) : Option Project :=
  let nl := pyLower name
  match projects.find? (fun p => pyLower p.name == nl) with
  | some p => some p
  | none => projects.find? (fun p => containsSub nl.data (pyLower p.name).data)

/-- The project-name resolution step at the end of
`RequirementsAgent._extract_information` (lines 121-127): when the
extracted dict holds a truthy `project_name`, resolve it against the
project list; a hit stores the project id and the exact name, a miss
nulls `project_name` back out.  A truthy non-string name raises
(`.lower()` on a non-string), which the caller turns into `{}`. -/
def resolve_project_name (projects : List Project) (extracted : List (String × Json)) :
    Except String (List (String × Json)) :=
  let pn := aGetD extracted "project_name" Json.null
  if jTruthy pn then
    match pn with
    | .str nm =>
      match get_project_by_name projects nm with
      | some p =>
        .ok (aUpdate "project_name" (Json.str p.name) (aUpdate "project_id" (Json.num p.id) extracted))
      | none => .ok (aUpdate "project_name" Json.null extracted)
    | _ => .error "AttributeError: lower"
  else .ok extracted

/-- The merge loop of `RequirementsAgent.process_user_response`
(lines 72-74): each extracted item is merged into the session memory only
when its value is truthy and its key is one of the known fields. -/
def merge_extracted (info extr : List (String × Json)) : List (String × Json) :=
  extr.foldl
    (fun acc kv => if jTruthy kv.2 && aMem kv.1 acc then aUpdate kv.1 kv.2 acc else acc)
    info

/-- One conversation message (`role`, `content`). -/
abbrev ChatMsg := String × String

/-- The instance state of `NotificationAgent` (`__init__`, lines 17-23). -/
structure NotificationAgentState where
  conversation_history : List ChatMsg
  notification_data : Json
  validation_errors : List String
  modifications_made : List String
  state : String
  raw_input : String

/-- The constructor state of `NotificationAgent`. -/
def initNotificationAgent : NotificationAgentState :=
  { conversation_history := []
    notification_data := .arr []
    validation_errors := []
    modifications_made := []
    state := "validating"
    raw_input := "" }

/-- `NotificationAgent.reset` (lines 317-321): clears the conversation
history, the record list, the error list and the state tag.  It does not
touch `modifications_made` or `raw_input`. -/
def notificationReset (s : NotificationAgentState) : NotificationAgentState :=
  { s with
    conversation_history := []
    notification_data := .arr []
    validation_errors := []
    state := "validating" }

/-- Python `"rows" in parsed` for a decoded JSON value: key membership on
dicts, element membership on lists, substring on strings; `TypeError` on
the remaining shapes. -/
def pyInRows (v : Json) : Except String Bool :=
  match v with
  | .obj fs => .ok (aMem "rows" fs)
  | .arr es => .ok (es.any (fun e => pyEqStr e "rows"))
  | .str s => .ok (containsSub "rows".data s.data)
  | _ => .error "TypeError: argument is not iterable"

/-- Python `parsed["rows"]` (reached only after a successful `in` test;
subscription still raises on lists and strings). -/
def pySubscriptRows (v : Json) : Except String Json :=
  match v with
  | .obj fs =>
    match aLookup "rows" fs with
    | some w => .ok w
    | none => .error "KeyError: rows"
  | _ => .error "TypeError: not subscriptable with str"

/-- Iterate a decoded JSON value the way a Python `for` loop does:
lists yield elements, strings yield one-character strings, dicts yield
their keys; other values raise `TypeError`. -/
def pyIter (v : Json) : Except String (List Json) :=
  match v with
  | .arr es => .ok es
  | .str s => .ok (s.data.map (fun c => Json.str (String.mk [c])))
  | .obj fs => .ok (fs.map (fun kv => Json.str kv.1))
  | _ => .error "TypeError: not iterable"

/-- Python `row.get(k)` where `row` must be a dict (`AttributeError`
otherwise). -/
def pyRowGet (row : Json) (k : String) (dflt : Json) : Except String Json :=
  match row with
  | .obj fs => .ok (aGetD fs k dflt)
  | _ => .error "AttributeError: get"

/-- One step of the `_validate_rows` loop: compute the missing-field
names of one row. -/
def rowMissing (row : Json) : Except String (List String) := do
  let m ← pyRowGet row "Milestone" Json.null
  let s ← pyRowGet row "Subject" Json.null
  let e ← pyRowGet row "Email" Json.null
  let miss1 := if jTruthy m then [] else ["Milestone"]
  let miss2 := if jTruthy s then miss1 else miss1 ++ ["Subject"]
  let miss3 := if jTruthy e then miss2 else miss2 ++ ["Email"]
  pure miss3

/-- The loop of `_validate_rows`: accumulates error strings row by row;
a raised exception stops the loop, keeping the errors accumulated so
far (the method rebuilds `self.validation_errors` incrementally). -/
def validateRowsGo : List Json → Nat → List String → List String × Option String
  | [], _, acc => (acc, none)
  | row :: rest, i, acc =>
    match rowMissing row with
    | .error e => (acc, some e)
    | .ok missing =>
      if missing.isEmpty then validateRowsGo rest (i + 1) acc
      else
        match pyRowGet row "Milestone" (Json.str "Unknown") with
        | .error e => (acc, some e)
        | .ok mv =>
          validateRowsGo rest (i + 1)
            (acc ++ ["Row " ++ toString (i + 1) ++ " (" ++ pyStr mv ++ "): Missing " ++
              String.intercalate ", " missing])

/-- `NotificationAgent._validate_rows` (lines 199-210) as a function of
the stored data: returns the rebuilt `validation_errors` list together
with the exception message when iteration or field access raises
mid-loop (in which case the first component holds the errors built
before the raise). -/
def validate_rows (ndata : Json) : List String × Option String :=
  match pyIter ndata with
  | .error e => ([], some e)
  | .ok rows => validateRowsGo rows 0 []

/-- `NotificationAgent._apply_correction_with_llm` (lines 212-242) as a
function of the LLM call outcome and the session's record list and error
list.  The `chatResult` parameter stands for the external `chat` call:
`Except.error` is a raised exception, `Except.ok` its returned text. -/
def apply_correction_with_llm (chatResult : Except String String) (ndata : Json)
    (errors : List String) : Json × List String :=
  match chatResult with
  | .error e => (ndata, errors ++ ["Failed to apply correction: " ++ e])
  | .ok result =>
    match pyJsonLoads result with
    | .error e => (ndata, errors ++ ["Failed to apply correction: " ++ e])
    | .ok parsed =>
      match pyInRows parsed with
      | .error e => (ndata, errors ++ ["Failed to apply correction: " ++ e])
      | .ok false => (ndata, errors ++ ["Could not apply corrections. Please paste the corrected table."])
      | .ok true =>
        match pySubscriptRows parsed with
        | .error e => (ndata, errors ++ ["Failed to apply correction: " ++ e])
        | .ok rows =>
          match validate_rows rows with
          | (newErrors, none) => (rows, newErrors)
          | (sofar, some e) => (rows, sofar ++ ["Failed to apply correction: " ++ e])

/-- `re.split` worker for the pattern `Subject:` (optionally with a
trailing greedy `\s*`), case-insensitive, left-to-right and
non-overlapping; `acc` holds the current segment reversed. -/
def splitSubjAux (ws : Bool) : Nat → List Char → List Char → List (List Char)
  | 0, acc, rest => [acc.reverse ++ rest]
  | _, acc, [] => [acc.reverse]
  | fuel + 1, acc, c :: cs =>
    if ciStartsWith "Subject:".data (c :: cs) then
      let r1 := (c :: cs).drop 8
      let r2 := if ws then r1.dropWhile pyIsSpace else r1
      acc.reverse :: splitSubjAux ws fuel [] r2
    else splitSubjAux ws fuel (c :: acc) cs

/-- `re.split(r"Subject:\s*", text, flags=re.IGNORECASE)` when `ws` is
true, and `re.split(r"Subject:", text, flags=re.IGNORECASE)` otherwise. -/
def splitSubject (ws : Bool) (s : List Char) : List (List Char) :=
  splitSubjAux ws (s.length + 1) [] s

/-- Generic `re.sub` scanner for a matcher that consumes at least one
character: scan left to right, replace each match, continue after it. -/
def subScan (m : List Char → Option (List Char)) (repl : List Char) : Nat → List Char → List Char
  | 0, s => s
  | _, [] => []
  | fuel + 1, c :: cs =>
    match m (c :: cs) with
    | some rest => repl ++ subScan m repl fuel rest
    | none => c :: subScan m repl fuel cs

/-- Matcher for `Application\s*_{2,}` at the head of the input (greedy
`\s*` and `_{2,}` are safe: the three character sets are disjoint). -/
def matchApplicationPat (s : List Char) : Option (List Char) :=
  if startsWithL "Application".data s then
    let r1 := (s.drop 11).dropWhile pyIsSpace
    if (r1.takeWhile (· == '_')).length ≥ 2 then some (r1.dropWhile (· == '_')) else none
  else none

/-- `re.sub(r"Application\s*_{2,}", "[Application]", s)`. -/
def sub_application (s : List Char) : List Char :=
  subScan matchApplicationPat "[Application]".data (s.length + 1) s

/-- Matcher for `#{1,}\s*_{2,}` at the head of the input. -/
def matchHashPat (s : List Char) : Option (List Char) :=
  let hs := s.takeWhile (· == '#')
  if hs.length ≥ 1 then
    let r1 := (s.drop hs.length).dropWhile pyIsSpace
    if (r1.takeWhile (· == '_')).length ≥ 2 then some (r1.dropWhile (· == '_')) else none
  else none

/-- `re.sub(r"#{1,}\s*_{2,}", "#[Address]", s)`. -/
def sub_hash_address (s : List Char) : List Char :=
  subScan matchHashPat "#[Address]".data (s.length + 1) s

/-- Matcher for `_{2,}` at the head of the input. -/
def matchUnderscoresPat (s : List Char) : Option (List Char) :=
  if (s.takeWhile (· == '_')).length ≥ 2 then some (s.dropWhile (· == '_')) else none

/-- `re.sub(r"_{2,}", "[Address]", s)`. -/
def sub_underscores (s : List Char) : List Char :=
  subScan matchUnderscoresPat "[Address]".data (s.length + 1) s

/-- Matcher for the alternation `at\s*_{2,}|_{2,}address_{2,}|_{2,}`,
tried left to right as the regex engine does.  In the middle branch the
greedy underscore run before `address` cannot be shortened usefully
(giving characters back leaves an underscore where `a` is required), so
each branch is deterministic. -/
def matchEmailAddrPat (s : List Char) : Option (List Char) :=
  (if startsWithL "at".data s then
    let r1 := (s.drop 2).dropWhile pyIsSpace
    if (r1.takeWhile (· == '_')).length ≥ 2 then some (r1.dropWhile (· == '_')) else none
  else none).orElse (fun _ =>
    (let us := s.takeWhile (· == '_')
     if us.length ≥ 2 && startsWithL "address".data (s.drop us.length) then
       let r2 := s.drop (us.length + 7)
       if (r2.takeWhile (· == '_')).length ≥ 2 then some (r2.dropWhile (· == '_')) else none
     else none).orElse (fun _ => matchUnderscoresPat s))

/-- `re.sub(r"at\s*_{2,}|_{2,}address_{2,}|_{2,}", "[Address]", s)`. -/
def sub_email_address (s : List Char) : List Char :=
  subScan matchEmailAddrPat "[Address]".data (s.length + 1) s

/-- The business-rule stop phrases of `_parse_and_validate` (line 131). -/
def stopKeywords : List String :=
  ["Send when", "Send this if", "Sent when", "Send after", "-Inspector will"]

/-- `any(keyword in line for keyword in ...)`. -/
def hasStopKeyword (line : List Char) : Bool :=
  stopKeywords.any (fun k => containsSub k.data line)

/-- The acceptance test of the milestone-inference loop (lines 177-184):
non-empty, none of the header keywords, longer than 3 characters, not
starting with `Send`, and containing no tab. -/
def milestoneCandidate (line : List Char) : Bool :=
  !line.isEmpty && !containsSub "Notification Type".data line &&
  !containsSub "Verbiage".data line && !containsSub "Business Rules".data line &&
  !containsSub "Subject:".data line && decide (line.length > 3) &&
  !startsWithL "Send".data line && !containsSub ['\t'] line

/-- The default milestone `f"Notification {i+1}"`. -/
def defaultMilestone (i : Nat) : List Char :=
  ("Notification " ++ toString (i + 1)).data

/-- Milestone inference over the text before this block's `Subject:`:
strip and drop blank lines, look at the last five lines in reverse, take
the first acceptable one, else the default. -/
def inferMilestone (beforeSubject : List Char) (i : Nat) : List Char :=
  let beforeLines := ((splitOnCharL '\n' beforeSubject).map pyStripL).filter (fun l => !l.isEmpty)
  let lastFive := beforeLines.drop (beforeLines.length - 5)
  match lastFive.reverse.find? milestoneCandidate with
  | some l => l
  | none => defaultMilestone i

/-- The milestone for block `i` (lines 166-186): inference applies only
when some text precedes this block's `Subject:` marker. -/
def blockMilestone (subjectSplits : List (List Char)) (i : Nat) : List Char :=
  if i < subjectSplits.length - 1 then
    match subjectSplits.get? i with
    | some before => inferMilestone before i
    | none => defaultMilestone i
  else defaultMilestone i

/-- One parsed notification row. -/
structure NotifRecord where
  milestone : String
  subject : String
  email : String
deriving DecidableEq, Repr

/-- The outcome of `_parse_and_validate`: the three lists the method
rebuilds (`notification_data`, `validation_errors`,
`modifications_made`). -/
structure ParseOutcome where
  records : List NotifRecord
  errors : List String
  mods : List String
deriving DecidableEq, Repr

/-- Process one `Subject:`-delimited block (lines 117-192): returns the
produced record and the modification notes, or `none` for the
(unreachable) `continue` branch. -/
def processBlock (subjectSplits : List (List Char)) (i : Nat) (block : List Char) :
    Option (NotifRecord × List String) :=
  match splitOnCharL '\n' (pyStripL block) with
  | [] => none
  | l0 :: restLines =>
    let subject0 := pyStripL l0
    let emailLines := restLines.takeWhile (fun l => !hasStopKeyword l)
    let email0 := pyStripL (List.intercalate ['\n'] emailLines)
    let s1 := sub_application subject0
    let m1 : List String :=
      if s1 = subject0 then []
      else ["Subject " ++ toString (i + 1) ++ ": Replaced \x27Application ____\x27 with \x27[Application]\x27"]
    let s2 := sub_hash_address s1
    let m2 : List String :=
      if s2 = s1 then []
      else ["Subject " ++ toString (i + 1) ++ ": Replaced \x27#____\x27 with \x27#[Address]\x27"]
    let s3 := sub_underscores s2
    let m3 : List String :=
      if s3 = s2 then []
      else ["Subject " ++ toString (i + 1) ++ ": Replaced \x27____\x27 with \x27[Address]\x27"]
    let e1 := sub_application email0
    let m4 : List String :=
      if e1 = email0 then []
      else ["Email " ++ toString (i + 1) ++ ": Replaced \x27Application ____\x27 with \x27[Application]\x27"]
    let e2 := sub_email_address e1
    let m5 : List String :=
      if e2 = e1 then []
      else ["Email " ++ toString (i + 1) ++ ": Replaced address placeholders with \x27[Address]\x27"]
    let milestone := blockMilestone subjectSplits i
    some (⟨String.mk milestone, String.mk s3, String.mk e2⟩, m1 ++ m2 ++ m3 ++ m4 ++ m5)

/-- The per-block loop of `_parse_and_validate`, threading the 0-based
block index. -/
def parseBlocksGo (subjectSplits : List (List Char)) : Nat → List (List Char) →
    List NotifRecord × List String
  | _, [] => ([], [])
  | i, block :: rest =>
    let tail := parseBlocksGo subjectSplits (i + 1) rest
    match processBlock subjectSplits i block with
    | none => tail
    | some (r, ms) => (r :: tail.1, ms ++ tail.2)

/-- `NotificationAgent._parse_and_validate` (lines 80-197), as a pure
function from the input text to the three rebuilt lists. -/
def parse_and_validate (text : String) : ParseOutcome :=
  let t := text.data
  let lines0 := splitOnCharL '\n' (pyStripL t)
  if lines0.isEmpty then ⟨[], ["No data found."], []⟩
  else
    let parts0 := splitSubject true t
    let parts := if parts0.length > 1 then parts0.drop 1 else parts0
    let n := parts.length
    if n = 0 then
      ⟨[], ["No \x27Subject:\x27 lines found in the input. Please ensure your notifications include \x27Subject:\x27 lines."], []⟩
    else
      let splitMods : List String :=
        if n > 1 then
          ["Split input into " ++ toString n ++ " separate notifications based on \x27Subject:\x27 lines."]
        else []
      let subjectSplits := splitSubject false t
      let parsed := parseBlocksGo subjectSplits 0 parts
      let mods := splitMods ++ parsed.2
      if parsed.1.length ≠ n then
        ⟨parsed.1,
         ["Found " ++ toString n ++ " \x27Subject:\x27 line(s) but only created " ++
          toString parsed.1.length ++ " notification(s)."],
         mods⟩
      else ⟨parsed.1, [], mods⟩

/-- Characters of the identifier class `[A-Za-z0-9_.]` in the condition
pattern of `_normalize_condition`. -/
def condIdentChar (c : Char) : Bool :=
  ('A' ≤ c && c ≤ 'Z') || ('a' ≤ c && c ≤ 'z') || ('0' ≤ c && c ≤ '9') || c == '_' || c == '.'

/-- All characters whitespace (`\s* $` succeeds on the rest). -/
def wsOnly (s : List Char) : Bool := s.all pyIsSpace

/-- Quote characters of the optional `['\"]?` groups. -/
def isQuote (c : Char) : Bool := c == '\x27' || c == '"'

/-- After the lazy value group: `['\"]?\s*$` — an optional quote then
only whitespace to the end (`$` also matches before a final newline,
which is subsumed because a newline is whitespace). -/
def condTailOK (rest : List Char) : Bool :=
  match rest with
  | [] => true
  | c :: cs => (isQuote c && wsOnly cs) || wsOnly (c :: cs)

/-- The lazy group `(.+?)` followed by `['\"]?\s*$`: the shortest
non-empty newline-free prefix whose remainder satisfies the tail. -/
def contentScan : List Char → Option (List Char)
  | [] => none
  | c :: cs =>
    if c == '\n' then none
    else if condTailOK cs then some [c]
    else
      match contentScan cs with
      | some rest => some (c :: rest)
      | none => none

/-- One backtracking attempt of `\s*['\"]?(.+?)['\"]?\s*$` with exactly
`w` whitespace characters consumed by the leading `\s*`; the opening
quote is preferred when present (the group is greedy). -/
def tryValueAt (T : List Char) (w : Nat) : Option (List Char) :=
  let rest := T.drop w
  (match rest with
   | c :: cs => if isQuote c then contentScan cs else none
   | [] => none).orElse (fun _ => contentScan rest)

/-- Backtracking loop over the leading `\s*` width, longest first. -/
def valuePartLoop (T : List Char) : Nat → Option (List Char)
  | 0 => tryValueAt T 0
  | w + 1 => (tryValueAt T (w + 1)).orElse (fun _ => valuePartLoop T w)

/-- The full value part `\s*['\"]?(.+?)['\"]?\s*$` of the condition
pattern, returning the captured group. -/
def valuePart (T : List Char) : Option (List Char) :=
  valuePartLoop T ((T.takeWhile pyIsSpace).length)

/-- The operator alternation `(==|=|!=|<>|contains)` (case-insensitive)
followed by the value part; alternatives are tried in written order and
the matched text is returned for `m.group(2)`. -/
def opCont (rest : List Char) : Option (String × List Char) :=
  let tryOne := fun (op : String) =>
    if ciStartsWith op.data rest then
      match valuePart (rest.drop op.length) with
      | some right => some (String.mk (rest.take op.length), right)
      | none => none
    else none
  (tryOne "==").orElse (fun _ =>
    (tryOne "=").orElse (fun _ =>
      (tryOne "!=").orElse (fun _ =>
        (tryOne "<>").orElse (fun _ => tryOne "contains"))))

/-- Backtracking loop over the greedy identifier group `([A-Za-z0-9_.]+)`
(longest first; giving back characters lets `contains` be found). -/
def condMatchGo (s1 : List Char) : Nat → Option (List Char × String × List Char)
  | 0 => none
  | k + 1 =>
    let rest2 := (s1.drop (k + 1)).dropWhile pyIsSpace
    match opCont rest2 with
    | some (op, right) => some (s1.take (k + 1), op, right)
    | none => condMatchGo s1 k

/-- `re.match` of the condition pattern
`\s*([A-Za-z0-9_.]+)\s*(==|=|!=|<>|contains)\s*['\"]?(.+?)['\"]?\s*$`
(case-insensitive), returning the three captured groups. -/
def condMatch (s : List Char) : Option (List Char × String × List Char) :=
  let s1 := s.dropWhile pyIsSpace
  condMatchGo s1 ((s1.takeWhile condIdentChar).length)

/-- The dict-branch operator canonicalization `op_map.get(op, op)` of
`_normalize_condition` (lines 44-46). -/
def condOpMapD (op : String) : String :=
  if op = "=" || op = "==" || op = "equals" then "equals"
  else if op = "contains" then "contains"
  else if op = "!=" || op = "<>" || op = "notequals" then "notEquals"
  else op

/-- The string-branch operator canonicalization
`op_map.get(op_raw, "equals")` (lines 53-54). -/
def condOpMapS (op : String) : String :=
  if op = "=" || op = "==" then "equals"
  else if op = "contains" then "contains"
  else if op = "!=" || op = "<>" then "notEquals"
  else "equals"

/-- `_normalize_condition` (lines 37-56).  The dict branch raises
(`AttributeError`) when the `op`-chain value is a truthy non-string. -/
def normalize_condition (c : Json) : Except String (Option (List (String × Json))) :=
  match c with
  | .obj kvs =>
    let left := pyOrJ (aGetD kvs "left" .null) (pyOrJ (aGetD kvs "field" .null) (aGetD kvs "name" .null))
    let op0 := pyOrJ (aGetD kvs "op" .null) (pyOrJ (aGetD kvs "operator" .null) (.str "equals"))
    match op0 with
    | .str ops =>
      let op1 := pyLower ops
      let right := pyOrJ (aGetD kvs "right" .null) (pyOrJ (aGetD kvs "value" .null) (aGetD kvs "val" .null))
      match left, right with
      | .null, _ => .ok none
      | _, .null => .ok none
      | l, r => .ok (some [("left", l), ("op", .str (condOpMapD op1)), ("right", r)])
    | _ => .error "AttributeError: lower"
  | .str s =>
    match condMatch s.data with
    | some (g1, opRaw, g3) =>
      .ok (some [("left", .str (String.mk g1)),
                 ("op", .str (condOpMapS (pyLower opRaw))),
                 ("right", .str (String.mk g3))])
    | none => .ok none
  | _ => .ok none

/-- The shared `x = data.get(k, []) or []` / dict-wrap / iterate shape of
the conditions and actions pipelines (lines 132-135 and 138-141):
falsy becomes `[]`, a dict is wrapped in a singleton list, and the result
is iterated Python-style. -/
def pyListify (v : Json) : Except String (List Json) :=
  let v2 := if jTruthy v then v else .arr []
  match v2 with
  | .obj kvs => .ok [.obj kvs]
  | _ => pyIter v2

/-- The comprehension `[nc for c in conds if (nc := _normalize_condition(c))]`. -/
def normCondsGo : List Json → Except String (List (List (String × Json)))
  | [] => .ok []
  | c :: rest => do
    let nc ← normalize_condition c
    let tail ← normCondsGo rest
    pure (match nc with | some d => d :: tail | none => tail)

/-- The full conditions-normalization step of `parse_spec`. -/
def normalize_conditions (v : Json) : Except String (List (List (String × Json))) := do
  let cs ← pyListify v
  normCondsGo cs

/-- The `type` alias table of `_normalize_action` (lines 78-86). -/
def actionAlias (t : String) : String :=
  if t = "createtask" || t = "create_task" || t = "task" then "create_task"
  else if t = "sendemail" || t = "send_email" || t = "email" then "send_email"
  else t

/-- `out[k] = a[k]` for every listed key present with a non-`None` value
(lines 102-104 and 113-115). -/
def copyFields (kvs : List (String × Json)) (keys : List String)
    (out : List (String × Json)) : List (String × Json) :=
  keys.foldl
    (fun acc k =>
      match aLookup k kvs with
      | some .null => acc
      | some v => aUpdate k v acc
      | none => acc)
    out

/-- `out.setdefault(k, v)` for each default (lines 106-111). -/
def setDefaults (out : List (String × Json)) (defs : List (String × Json)) :
    List (String × Json) :=
  defs.foldl (fun acc kv => if aMem kv.1 acc then acc else aUpdate kv.1 kv.2 acc) out

/-- The `create_task` field tuple of `_normalize_action`. -/
def createTaskKeys : List String :=
  ["subject", "due_in_days", "owner", "what_id", "who_id", "priority", "status"]

/-- The `send_email` field tuple of `_normalize_action`. -/
def sendEmailKeys : List String :=
  ["template_name", "to_addresses", "email_subject", "email_body"]

/-- `_normalize_action` (lines 58-118).  The dict branch raises when the
`type`-alias chain yields a truthy non-string. -/
def normalize_action (a : Json) : Except String (Option (List (String × Json))) :=
  match a with
  | .null => .ok none
  | .str s =>
    let sl := pyLowerL (pyStripL s.data)
    if containsSub "email".data sl then .ok (some [("type", .str "send_email")])
    else if containsSub "task".data sl || containsSub "create".data sl then
      .ok (some [("type", .str "create_task")])
    else .ok none
  | .obj kvs =>
    let tv := pyOrJ (aGetD kvs "type" .null)
      (pyOrJ (aGetD kvs "action" .null) (pyOrJ (aGetD kvs "name" .null) (.str "")))
    match tv with
    | .str ts =>
      let t0 := pyLower (String.mk (pyStripL ts.data))
      let t1 := actionAlias t0
      let t2 :=
        if t1 ≠ "" then t1
        else if sendEmailKeys.any (fun k => aMem k kvs) then "send_email"
        else if createTaskKeys.any (fun k => aMem k kvs) then "create_task"
        else ""
      if t2 = "" then .ok none
      else if t2 = "create_task" then
        .ok (some (setDefaults (copyFields kvs createTaskKeys [("type", .str "create_task")])
          [("subject", .str "Automated Task"), ("due_in_days", .num 1),
           ("owner", .str "record_owner"), ("what_id", .str "record"),
           ("status", .str "Not Started"), ("priority", .str "Normal")]))
      else
        .ok (some (copyFields kvs sendEmailKeys [("type", .str t2)]))
    | _ => .error "AttributeError: strip"
  | _ => .ok none

/-- The comprehension `[na for a in acts if (na := _normalize_action(a))]`. -/
def normActsGo : List Json → Except String (List (List (String × Json)))
  | [] => .ok []
  | a :: rest => do
    let na ← normalize_action a
    let tail ← normActsGo rest
    pure (match na with | some d => d :: tail | none => tail)

/-- The full actions-normalization step of `parse_spec` (before the
empty-list fallback). -/
def normalize_actions (v : Json) : Except String (List (List (String × Json))) := do
  let as0 ← pyListify v
  normActsGo as0

/-- Pydantic-v1 coercion into a required `str` field: strings pass,
numbers and booleans are stringified, anything else fails validation. -/
def coerceStr (v : Json) : Except String String :=
  match v with
  | .str s => .ok s
  | .num n => .ok (toString n)
  | .bool b => .ok (if b then "True" else "False")
  | _ => .error "str type expected"

/-- Pydantic-v1 coercion into a `str | None` field. -/
def coerceOptStr (v : Json) : Except String (Option String) :=
  match v with
  | .null => .ok none
  | v2 => (coerceStr v2).map some

/-- Decimal digit test. -/
def isDig (c : Char) : Bool := '0' ≤ c && c ≤ '9'

/-- Python `int(str)`: optional surrounding whitespace and sign, then
digits. -/
def strToIntPy (s : String) : Except String Int :=
  let t := pyStripL s.data
  let (neg, t1) :=
    match t with
    | '-' :: r => (true, r)
    | '+' :: r => (false, r)
    | _ => (false, t)
  if !t1.isEmpty && t1.all isDig then
    .ok ((if neg then (-1 : Int) else 1) * Int.ofNat (digitsToNat t1))
  else .error "invalid literal for int"

/-- Pydantic-v1 coercion into a required `int` field. -/
def coerceInt (v : Json) : Except String Int :=
  match v with
  | .num n => .ok n
  | .bool b => .ok (if b then 1 else 0)
  | .str s => strToIntPy s
  | _ => .error "int type expected"

/-- Pydantic-v1 coercion into an `int | None` field. -/
def coerceOptInt (v : Json) : Except String (Option Int) :=
  match v with
  | .null => .ok none
  | v2 => (coerceInt v2).map some

/-- The `FlowAction` model of `tools/spec.py` (lines 6-20), after
pydantic validation. -/
structure FlowAction where
  type : String
  subject : Option String
  due_in_days : Option Int
  owner : Option String
  what_id : Option String
  who_id : Option String
  priority : Option String
  status : Option String
  template_name : Option String
  to_addresses : Option String
  email_subject : Option String
  email_body : Option String
deriving DecidableEq, Repr

/-- `FlowAction(**d)`: validate one action dict. -/
def FlowAction.validate (d : List (String × Json)) : Except String FlowAction := do
  let t ← coerceStr (aGetD d "type" .null)
  let subject ← coerceOptStr (aGetD d "subject" .null)
  let due ← coerceOptInt (aGetD d "due_in_days" .null)
  let owner ← coerceOptStr (aGetD d "owner" .null)
  let what ← coerceOptStr (aGetD d "what_id" .null)
  let who ← coerceOptStr (aGetD d "who_id" .null)
  let priority ← coerceOptStr (aGetD d "priority" .null)
  let status ← coerceOptStr (aGetD d "status" .null)
  let tn ← coerceOptStr (aGetD d "template_name" .null)
  let ta ← coerceOptStr (aGetD d "to_addresses" .null)
  let es ← coerceOptStr (aGetD d "email_subject" .null)
  let eb ← coerceOptStr (aGetD d "email_body" .null)
  pure ⟨t, subject, due, owner, what, who, priority, status, tn, ta, es, eb⟩

/-- Characters allowed by the `no_spaces` validator class `[A-Za-z0-9_]`. -/
def labelChar (c : Char) : Bool :=
  ('A' ≤ c && c ≤ 'Z') || ('a' ≤ c && c ≤ 'z') || ('0' ≤ c && c ≤ '9') || c == '_'

/-- `re.match(r"^[A-Za-z0-9_]+$", v)` as a boolean: a non-empty run of
label characters, optionally followed by one final newline (Python `$`
also matches just before a trailing newline). -/
def flow_label_ok (cs : List Char) : Bool :=
  (!cs.isEmpty && cs.all labelChar) ||
  (match cs.getLast? with
   | some '\n' => !cs.dropLast.isEmpty && cs.dropLast.all labelChar
   | _ => false)

/-- The `FlowSpec` model of `tools/spec.py` (lines 22-33), after
pydantic validation. -/
structure FlowSpec where
  flow_label : String
  object_api : String
  trigger : String
  conditions : List (List (String × Json))
  actions : List FlowAction

/-- Validate the `conditions` field: a list of dicts. -/
def jsonToCondList (v : Json) : Except String (List (List (String × Json))) :=
  match v with
  | .arr xs =>
    xs.mapM (fun x =>
      match x with
      | .obj kvs => .ok kvs
      | _ => .error "dict type expected")
  | _ => .error "list type expected"

/-- Validate the `actions` field: a list of `FlowAction` dicts. -/
def jsonToActList (v : Json) : Except String (List FlowAction) :=
  match v with
  | .arr xs =>
    xs.mapM (fun x =>
      match x with
      | .obj kvs => FlowAction.validate kvs
      | _ => .error "dict type expected")
  | _ => .error "list type expected"

/-- `FlowSpec(**data)`: required `flow_label` (with the `no_spaces`
validator), required `object_api` and `trigger`, defaulted `conditions`
and `actions`; extra keys are ignored (pydantic-v1 default). -/
def FlowSpec.validate (data : List (String × Json)) : Except String FlowSpec := do
  let fl ← coerceStr (aGetD data "flow_label" .null)
  if flow_label_ok fl.data then pure ()
  else throw "flow_label must be alnum/underscore (no spaces)"
  let oa ← coerceStr (aGetD data "object_api" .null)
  let tr ← coerceStr (aGetD data "trigger" .null)
  let conds ← jsonToCondList (aGetD data "conditions" (.arr []))
  let acts ← jsonToActList (aGetD data "actions" (.arr []))
  pure ⟨fl, oa, tr, conds, acts⟩

/-- The fallback action dict synthesized by `parse_spec` when the
normalized actions list is empty (lines 144-145). -/
def defaultActionDict : List (String × Json) :=
  [("type", .str "create_task"), ("subject", .str "Automated Task"),
   ("due_in_days", .num 1), ("owner", .str "record_owner"),
   ("what_id", .str "record"), ("status", .str "Not Started"),
   ("priority", .str "Normal")]

/-- `parse_spec` from decoded JSON onward (lines 123-148): trigger
coercion, condition and action normalization, the empty-actions
fallback, and `FlowSpec` construction.  A non-dict document raises
(`data.get` on it). -/
def parse_spec_data (data : Json) : Except String FlowSpec :=
  match data with
  | .obj kvs => do
    let trig0 := aGetD kvs "trigger" (.str "Create")
    let trig :=
      if pyEqStr trig0 "Create" || pyEqStr trig0 "Update" || pyEqStr trig0 "CreateOrUpdate" then trig0
      else .str "Create"
    let kvs1 := aUpdate "trigger" trig kvs
    let conds ← normalize_conditions (aGetD kvs1 "conditions" (.arr []))
    let kvs2 := aUpdate "conditions" (.arr (conds.map .obj)) kvs1
    let na ← normalize_actions (aGetD kvs2 "actions" (.arr []))
    let na2 := if na.isEmpty then [defaultActionDict] else na
    let kvs3 := aUpdate "actions" (.arr (na2.map .obj)) kvs2
    FlowSpec.validate kvs3
  | _ => .error "AttributeError: get"

/-- `parse_spec(txt)` (line 122-148): `json.loads` the whole text, then
normalize.  There is no brace extraction here. -/
def parse_spec (txt : String) : Except String FlowSpec := do
  let data ← pyJsonLoads txt
  parse_spec_data data

/-- The `API_VERSION` constant of `tools/flow_templates.py`. -/
def apiVersion : String := "60.0"

/-- The `esc` helper of `_create_task_call_xml`: five sequential
`str.replace` calls, ampersand first. -/
def escXml (s : String) : String :=
  let s1 := replaceAll ['&'] "&amp;".data s.data
  let s2 := replaceAll ['<'] "&lt;".data s1
  let s3 := replaceAll ['>'] "&gt;".data s2
  let s4 := replaceAll ['"'] "&quot;".data s3
  let s5 := replaceAll ['\x27'] "&apos;".data s4
  String.mk s5

/-- Python `opt or dflt` for an optional string field. -/
def pyOrOptStr (o : Option String) (d : String) : String :=
  match o with
  | some s => if s = "" then d else s
  | none => d

/-- Truthiness of an optional string field (`bool(act.get(k))`). -/
def optTruthy (o : Option String) : Bool :=
  match o with
  | some s => s != ""
  | none => false

/-- The `_xy` helper. -/
def xyTag (x y : Nat) : String :=
  "    <locationX>" ++ toString x ++ "</locationX>\n    <locationY>" ++ toString y ++ "</locationY>"

/-- `_xml_header()`. -/
def xmlHeaderStr : String :=
  "<?xml version=\"1.0\" encoding=\"UTF-8\"?>\n<Flow xmlns=\"http://soap.sforce.com/2006/04/metadata\">"

/-- `_xml_footer()`. -/
def xmlFooterStr : String := "</Flow>\n"

/-- Render one condition of the start block (lines 25-42): a
`RecordType.` left side becomes a boolean formula, everything else a
plain filter.  A truthy non-string left side raises (`startswith`), and
an unhashable `op` raises in `op_map.get`. -/
def condFilterXml (objectApi : String) (c : List (String × Json)) : Except String String := do
  let left := aGetD c "left" .null
  let op := aGetD c "op" (.str "equals")
  let val := aGetD c "right" .null
  let isRT ←
    match left with
    | .str s => Except.ok (jTruthy left && startsWithL "RecordType.".data s.data)
    | _ =>
      if jTruthy left then Except.error "AttributeError: startswith"
      else Except.ok false
  if isRT then
    pure ("    <formula>\n      <dataType>Boolean</dataType>\n      <expression>$Record.RecordType.DeveloperName = \x27" ++
      pyStr val ++ "\x27</expression>\n    </formula>")
  else do
    let fieldPath := if jTruthy left then objectApi ++ "." ++ pyStr left else ""
    let opStr ←
      match op with
      | .str s =>
        Except.ok (if s = "equals" then "EqualTo"
          else if s = "notEquals" then "NotEqualTo"
          else if s = "contains" then "Contains"
          else "EqualTo")
      | .arr _ => Except.error "TypeError: unhashable"
      | .obj _ => Except.error "TypeError: unhashable"
      | _ => Except.ok "EqualTo"
    pure ("    <filters>\n      <field>" ++ fieldPath ++ "</field>\n      <operator>" ++
      opStr ++ "</operator>\n      <value>" ++ pyStr val ++ "</value>\n    </filters>")

/-- `_start_block` (lines 19-59). -/
def start_block (spec : FlowSpec) (addXy : Bool) : Except String String := do
  let rt ←
    if spec.trigger = "Create" then Except.ok "Create"
    else if spec.trigger = "Update" then Except.ok "Update"
    else if spec.trigger = "CreateOrUpdate" then Except.ok "CreateOrUpdate"
    else Except.error "KeyError: trigger"
  let filters ← spec.conditions.mapM (condFilterXml spec.object_api)
  let xyStart := if addXy then xyTag 100 100 ++ "\n" else ""
  let filtersJoin := if filters.isEmpty then "" else String.intercalate "\n" filters ++ "\n"
  pure ("  <startElementReference>start</startElementReference>\n  <start>\n" ++ xyStart ++
    "    <connector>\n      <targetReference>post_start</targetReference>\n    </connector>\n    <object>" ++
    spec.object_api ++ "</object>\n    <recordTriggerType>" ++ rt ++
    "</recordTriggerType>\n    <triggerType>RecordAfterSave</triggerType>\n" ++ filtersJoin ++ "  </start>")

/-- `_create_task_call_xml` (lines 62-154). -/
def create_task_call_xml (stepName : String) (act : FlowAction) (addXy : Bool) :
    String × String :=
  let subject := escXml (pyOrOptStr act.subject "New Task")
  let dueDays : Int := act.due_in_days.getD 0
  let owner := pyOrOptStr act.owner "record_owner"
  let ownerRef :=
    if owner = "record_owner" then "\x7b!$Record.OwnerId\x7d"
    else if owner = "creator" then "\x7b!$Record.CreatedById\x7d"
    else if startsWithL "user_id:".data owner.data then String.mk (owner.data.drop 8)
    else "\x7b!$Record.OwnerId\x7d"
  let whatId := String.mk (pyStripL (pyOrOptStr act.what_id "record").data)
  let whatRef :=
    if whatId = "record" then "\x7b!$Record.Id\x7d"
    else if endsWithL "__c".data whatId.data then "\x7b!$Record." ++ whatId ++ "\x7d"
    else whatId
  let whoId := String.mk (pyStripL (pyOrOptStr act.who_id "").data)
  let whoRef := if whoId != "" then "\x7b!$Record." ++ whoId ++ "\x7d" else ""
  let status := escXml (pyOrOptStr act.status "Not Started")
  let priority := escXml (pyOrOptStr act.priority "Normal")
  let ia : List String :=
    ["    <inputAssignments>\n      <field>Subject</field>\n      <value>" ++ subject ++
      "</value>\n    </inputAssignments>"] ++
    (if dueDays != 0 then
      ["    <inputAssignments>\n      <field>ActivityDate</field>\n      <value>\x7b!TODAY()+" ++
        toString dueDays ++ "\x7d</value>\n    </inputAssignments>"]
     else []) ++
    ["    <inputAssignments>\n      <field>OwnerId</field>\n      <value>" ++ escXml ownerRef ++
      "</value>\n    </inputAssignments>"] ++
    (if whatRef != "" then
      ["    <inputAssignments>\n      <field>WhatId</field>\n      <value>" ++ escXml whatRef ++
        "</value>\n    </inputAssignments>"]
     else []) ++
    (if whoRef != "" then
      ["    <inputAssignments>\n      <field>WhoId</field>\n      <value>" ++ escXml whoRef ++
        "</value>\n    </inputAssignments>"]
     else []) ++
    ["    <inputAssignments>\n      <field>Status</field>\n      <value>" ++ status ++
      "</value>\n    </inputAssignments>",
     "    <inputAssignments>\n      <field>Priority</field>\n      <value>" ++ priority ++
      "</value>\n    </inputAssignments>"]
  let element :=
    "  <recordCreates>\n    <name>" ++ stepName ++ "</name>\n    <label>" ++
    (if subject != "" then subject else "Create Task") ++ "</label>\n" ++
    (if addXy then xyTag 360 100 ++ "\n" else "") ++
    String.intercalate "\n" ia ++ "\n" ++
    "    <object>Task</object>\n    <connector>\n      <targetReference>done</targetReference>\n    </connector>\n  </recordCreates>"
  (element, "done")

/-- `_send_email_action_xml` (lines 156-205); the input parameters are
inserted raw (no escaping), as in the source. -/
def send_email_action_xml (stepName : String) (act : FlowAction) (addXy : Bool) :
    String × String :=
  let assigns : List String :=
    if optTruthy act.template_name then
      ["    <inputParameters>\n      <name>emailTemplateNameOrId</name>\n      <stringValue>" ++
        (act.template_name.getD "") ++ "</stringValue>\n    </inputParameters>"]
    else
      (if optTruthy act.to_addresses then
        ["    <inputParameters>\n      <name>recipientAddresses</name>\n      <stringValue>" ++
          (act.to_addresses.getD "") ++ "</stringValue>\n    </inputParameters>"]
       else []) ++
      (if optTruthy act.email_subject then
        ["    <inputParameters>\n      <name>emailSubject</name>\n      <stringValue>" ++
          (act.email_subject.getD "") ++ "</stringValue>\n    </inputParameters>"]
       else []) ++
      (if optTruthy act.email_body then
        ["    <inputParameters>\n      <name>emailBody</name>\n      <stringValue>" ++
          (act.email_body.getD "") ++ "</stringValue>\n    </inputParameters>"]
       else [])
  let xyAc := if addXy then xyTag 500 100 ++ "\n" else ""
  let assignsXml := String.intercalate "\n" assigns ++ (if !assigns.isEmpty then "\n" else "")
  let elements :=
    "  <actionCalls>\n    <name>" ++ stepName ++ "</name>\n    <label>" ++ stepName ++
    "</label>\n" ++ xyAc ++
    "    <actionName>SendEmail</actionName>\n    <actionType>coreAction</actionType>\n    <connector>\n      <targetReference>done</targetReference>\n    </connector>\n" ++
    assignsXml ++ "    <storeOutputAutomatically>true</storeOutputAutomatically>\n  </actionCalls>"
  (elements, "done")

/-- The `processMetadataValues` part of `build_flow_xml`. -/
def processMetaPart : String :=
  "  <processMetadataValues>\n    <name>BuilderType</name>\n    <value>\n      <stringValue>LightningFlowBuilder</stringValue>\n    </value>\n  </processMetadataValues>"

/-- The `post_start` decision router of `build_flow_xml` (lines 230-258). -/
def routerBlock (addXy : Bool) : String :=
  "  <decisions>\n    <name>post_start</name>\n    <label>post_start</label>\n" ++
  (if addXy then xyTag 220 100 ++ "\n" else "") ++
  "    <defaultConnector>\n      <targetReference>step1</targetReference>\n    </defaultConnector>\n" ++
  "    <rules>\n      <name>Rule_Never</name>\n      <label>Rule_Never</label>\n      <conditionLogic>and</conditionLogic>\n" ++
  "      <conditions>\n        <leftValueReference>$GlobalConstant.True</leftValueReference>\n        <operator>EqualTo</operator>\n" ++
  "        <rightValue>\n          <booleanValue>false</booleanValue>\n        </rightValue>\n      </conditions>\n" ++
  "      <connector>\n        <targetReference>done</targetReference>\n      </connector>\n    </rules>\n  </decisions>"

/-- The configuration extraction of `build_flow_xml` (lines 209-211):
`(cfg or {}).get("defaults", {})`, then the two boolean flags. -/
def cfgFlagsE (cfg : Option (List (String × Json))) : Except String (Bool × Bool) :=
  let d := match cfg with
    | none => Json.obj []
    | some kvs => aGetD kvs "defaults" (.obj [])
  match d with
  | .obj dk =>
    .ok (jTruthy (aGetD dk "add_canvas_coordinates" (.bool true)),
         jTruthy (aGetD dk "emit_decision_router" (.bool true)))
  | _ => .error "AttributeError: get"

/-- One iteration of the action loop of `build_flow_xml` (lines 263-273):
`step<i>` is named from the running 1-based index `i`, and unrecognized
types render nothing. -/
def actionElem (addXy : Bool) (i : Nat) (act : FlowAction) : Option String :=
  if act.type = "create_task" then some (create_task_call_xml ("step" ++ toString i) act addXy).1
  else if act.type = "send_email" then some (send_email_action_xml ("step" ++ toString i) act addXy).1
  else none

/-- The action loop of `build_flow_xml`: the index advances on every
action, rendered or not. -/
def actionLoop (addXy : Bool) : List FlowAction → Nat → List String
  | [], _ => []
  | a :: rest, i =>
    match actionElem addXy i a with
    | some e => e :: actionLoop addXy rest (i + 1)
    | none => actionLoop addXy rest (i + 1)

/-- The `parts` list assembled by `build_flow_xml` (lines 208-276). -/
def build_flow_parts (spec : FlowSpec) (cfg : Option (List (String × Json))) :
    Except String (List String) := do
  let flags ← cfgFlagsE cfg
  let sb ← start_block spec flags.1
  pure ([xmlHeaderStr,
         "  <apiVersion>" ++ apiVersion ++ "</apiVersion>",
         "  <label>" ++ spec.flow_label ++ "</label>",
         processMetaPart,
         "  <processType>AutoLaunchedFlow</processType>",
         sb,
         "  <stages/>\n  <status>Active</status>"] ++
        (if flags.2 then [routerBlock flags.1] else []) ++
        actionLoop flags.1 spec.actions 1 ++
        [xmlFooterStr])

/-- `build_flow_xml`: the parts joined with newlines. -/
def build_flow_xml (spec : FlowSpec) (cfg : Option (List (String × Json))) :
    Except String String :=
  (build_flow_parts spec cfg).map (String.intercalate "\n")

/-- The XY snippet of `_ensure_xy_in_block` (identical to `_xy`). -/
def xySnippet (x y : Nat) : List Char := (xyTag x y).data

/-- The connector snippet of `_ensure_connector_to_done`. -/
def connectorSnippet : List Char :=
  "    <connector>\n      <targetReference>done</targetReference>\n    </connector>".data

/-- The default rules snippet of `_ensure_decision_rules`. -/
def rulesSnippet : List Char :=
  ("    <rules>\n      <name>Rule_Never</name>\n      <label>Rule_Never</label>\n      <conditionLogic>and</conditionLogic>\n" ++
   "      <conditions>\n        <leftValueReference>$GlobalConstant.True</leftValueReference>\n        <operator>EqualTo</operator>\n" ++
   "        <rightValue>\n          <booleanValue>false</booleanValue>\n        </rightValue>\n      </conditions>\n" ++
   "      <connector>\n        <targetReference>done</targetReference>\n      </connector>\n    </rules>").data

/-- `_insert_after_close_label` (lines 8-16): insert after the first
`</label>` (or `</name>`), else append after the whole block. -/
def insert_after_close_label (block snippet : List Char) : List Char :=
  match splitFirst "</label>".data block with
  | some (a, b) => a ++ "</label>".data ++ ['\n'] ++ snippet ++ b
  | none =>
    match splitFirst "</name>".data block with
    | some (a, b) => a ++ "</name>".data ++ ['\n'] ++ snippet ++ b
    | none => block ++ snippet

/-- `_ensure_xy_in_block` (lines 19-24). -/
def ensure_xy_in_block (block : List Char) (x y : Nat) : List Char × Bool :=
  if containsSub "<locationX>".data block && containsSub "<locationY>".data block then (block, false)
  else (insert_after_close_label block (xySnippet x y), true)

/-- `_ensure_connector_to_done` (lines 27-36). -/
def ensure_connector_to_done (block : List Char) : List Char × Bool :=
  if containsSub "<connector>".data block then (block, false)
  else (insert_after_close_label block connectorSnippet, true)

/-- Matcher for the legacy pattern
`<rightValueReference>\s*\$GlobalConstant\.False\s*</rightValueReference>`
(case-insensitive) at the head of the input. -/
def matchLegacy (s : List Char) : Option (List Char) :=
  if ciStartsWith "<rightValueReference>".data s then
    let r1 := (s.drop 21).dropWhile pyIsSpace
    if ciStartsWith "$GlobalConstant.False".data r1 then
      let r2 := (r1.drop 21).dropWhile pyIsSpace
      if ciStartsWith "</rightValueReference>".data r2 then some (r2.drop 22) else none
    else none
  else none

/-- The replacement for the legacy pattern. -/
def legacyRepl : List Char :=
  "<rightValue><booleanValue>false</booleanValue></rightValue>".data

/-- The `re.sub` patch of `_ensure_decision_rules` (lines 42-47). -/
def replaceLegacy (s : List Char) : List Char :=
  subScan matchLegacy legacyRepl (s.length + 1) s

/-- `_ensure_decision_rules` (lines 39-67). -/
def ensure_decision_rules (block : List Char) : List Char × Bool :=
  if containsSub "<rules>".data block then
    let patched := replaceLegacy block
    (patched, !(patched == block))
  else (insert_after_close_label block rulesSnippet, true)

/-- The `_fix_decision` closure (lines 93-99). -/
def fixDecisionBlock (b : List Char) : List Char × List String :=
  let r1 := ensure_xy_in_block b 220 100
  let r2 := ensure_decision_rules r1.1
  (r2.1, if r1.2 || r2.2 then ["fix <decisions> (XY/rules)"] else [])

/-- The `_fix_record_creates` closure (lines 104-114). -/
def fixRecordCreatesBlock (b : List Char) : List Char × List String :=
  let r1 := ensure_xy_in_block b 360 100
  let r2 := ensure_connector_to_done r1.1
  (r2.1, if r1.2 || r2.2 then ["fix <recordCreates> (XY/connector)"] else [])

/-- The `_fix_action_calls` closure (lines 119-129). -/
def fixActionCallsBlock (b : List Char) : List Char × List String :=
  let r1 := ensure_xy_in_block b 500 100
  let r2 := ensure_connector_to_done r1.1
  (r2.1, if r1.2 || r2.2 then ["fix <actionCalls> (XY/connector)"] else [])

/-- `re.sub(r"<open>.*?</close>", g, xml, flags=re.DOTALL)` for a block
transformer `g` that also reports fix strings: find the first opening
tag, the nearest closing tag after it, transform the enclosed block, and
continue after it; no closing tag after the first opening tag means no
match at all. -/
def subNGAux (openT closeT : List Char) (g : List Char → List Char × List String) :
    Nat → List Char → List Char × List String
  | 0, s => (s, [])
  | fuel + 1, s =>
    match splitFirst openT s with
    | none => (s, [])
    | some (pre, rest) =>
      match splitFirst closeT rest with
      | none => (s, [])
      | some (mid, rest2) =>
        let b := g (openT ++ mid ++ closeT)
        let r := subNGAux openT closeT g fuel rest2
        (pre ++ b.1 ++ r.1, b.2 ++ r.2)

/-- `subNGAux` with sufficient fuel. -/
def subNG (openS closeS : String) (g : List Char → List Char × List String)
    (s : List Char) : List Char × List String :=
  subNGAux openS.data closeS.data g (s.length + 1) s

/-- The matched blocks of the non-greedy scan, in order (used to state
which blocks a pass visits). -/
def blocksNG (openT closeT : List Char) : Nat → List Char → List (List Char)
  | 0, _ => []
  | fuel + 1, s =>
    match splitFirst openT s with
    | none => []
    | some (_, rest) =>
      match splitFirst closeT rest with
      | none => []
      | some (mid, rest2) => (openT ++ mid ++ closeT) :: blocksNG openT closeT fuel rest2

/-- The `<start>` stage of `autofix_locations_and_connectors`
(lines 79-90): a single search-and-patch on the first start block. -/
def startStage (xml : List Char) : List Char × List String :=
  match splitFirst "<start>".data xml with
  | none => (xml, [])
  | some (pre, rest) =>
    match splitFirst "</start>".data rest with
    | none => (xml, [])
    | some (mid, rest2) =>
      let block := "<start>".data ++ mid ++ "</start>".data
      if !(containsSub "<locationX>".data block) || !(containsSub "<locationY>".data block) then
        let fixed := replaceFirst "<start>".data
          ("<start>\n    <locationX>100</locationX>\n    <locationY>100</locationY>").data block
        (pre ++ fixed ++ rest2, ["add XY to <start>"])
      else (xml, [])

/-- `autofix_locations_and_connectors` (lines 71-133) on `List Char`. -/
def autofixL (s : List Char) : List Char × List String :=
  let r1 := startStage s
  let r2 := subNG "<decisions>" "</decisions>" fixDecisionBlock r1.1
  let r3 := subNG "<recordCreates>" "</recordCreates>" fixRecordCreatesBlock r2.1
  let r4 := subNG "<actionCalls>" "</actionCalls>" fixActionCallsBlock r3.1
  (r4.1, r1.2 ++ r2.2 ++ r3.2 ++ r4.2)

/-- `autofix_locations_and_connectors` on `String`. -/
def autofix_locations_and_connectors (xml : String) : String × List String :=
  let r := autofixL xml.data
  (String.mk r.1, r.2)

/-- A decisions block that the decisions pass leaves untouched: both
location tags, a `<rules>` block, and no legacy
`$GlobalConstant.False` reference. -/
def decBlockOK (b : List Char) : Bool :=
  containsSub "<locationX>".data b && containsSub "<locationY>".data b &&
  containsSub "<rules>".data b && (replaceLegacy b == b)

/-- A recordCreates/actionCalls block that its pass leaves untouched:
both location tags and a connector. -/
def connBlockOK (b : List Char) : Bool :=
  containsSub "<locationX>".data b && containsSub "<locationY>".data b &&
  containsSub "<connector>".data b

/-- The first start block (if any) already has both location tags. -/
def startBlockOK (s : List Char) : Bool :=
  match splitFirst "<start>".data s with
  | none => true
  | some (_, rest) =>
    match splitFirst "</start>".data rest with
    | none => true
    | some (mid, _) =>
      containsSub "<locationX>".data ("<start>".data ++ mid ++ "</start>".data) &&
      containsSub "<locationY>".data ("<start>".data ++ mid ++ "</start>".data)

/-- A document on which every repair of `autofix` is a no-op: the start
block and every decisions / recordCreates / actionCalls block already
carry everything the corresponding pass would inject. -/
def fullyFixed (s : List Char) : Bool :=
  startBlockOK s &&
  (blocksNG "<decisions>".data "</decisions>".data (s.length + 1) s).all decBlockOK &&
  (blocksNG "<recordCreates>".data "</recordCreates>".data (s.length + 1) s).all connBlockOK &&
  (blocksNG "<actionCalls>".data "</actionCalls>".data (s.length + 1) s).all connBlockOK

/-- The declared subject count `N` of `_parse_and_validate` (lines
94-102): segments of the `Subject:\s*` split, with everything before the
first marker dropped when a marker exists. -/
def num_subjects (text : String) : Nat :=
  let parts0 := splitSubject true text.data
  (if parts0.length > 1 then parts0.drop 1 else parts0).length

/-- An action `build_flow_xml` renders (lines 265-268). -/
def isRecognizedAction (a : FlowAction) : Bool :=
  a.type == "create_task" || a.type == "send_email"

/-- A rendered part that is the start element (only `_start_block`
output begins with this reference line). -/
def isStartPart (p : String) : Bool :=
  strStarts "  <startElementReference>" p

/-- The `<name>step<i></name>` tag of the `i`-th action element. -/
def stepNameTag (i : Nat) : String :=
  "<name>step" ++ toString i ++ "</name>"

/-- The `FlowAction` that validating `defaultActionDict` produces: the
default create-task action of the `parse_spec` fallback. -/
def defaultFlowAction : FlowAction :=
  ⟨"create_task", some "Automated Task", some 1, some "record_owner", some "record",
    none, some "Normal", some "Not Started", none, none, none, none⟩

/-- The `extracted_info` slots of `RequirementsAgent.__init__`
(lines 16-25). -/
def extractedInfoInit : List (String × Json) :=
  [("project_id", .null), ("project_name", .null), ("subject", .null),
   ("description", .null), ("priority", .null), ("assignee", .null),
   ("due_date", .null), ("additional_notes", .null)]

/-- The scenario input of claim C6. -/
def c6input : String :=
  "Application____ ____Subject: App Submitted\nYour app has been submitted."

/-- A decisions element with neither `</label>` nor `</name>`: the
autofix snippets for it land after `</decisions>`, outside the region a
second pass re-matches. -/
def autofixCounterInput : String := "<decisions></decisions>"

/-- A recordCreates element with a label but no location tags and no
connector: the first pass repairs it in place. -/
def autofixWitnessInput : String :=
  "<recordCreates>\n    <name>s1</name>\n    <label>L</label>\n    <object>Task</object>\n  </recordCreates>"

/-- A planner reply with prose around a valid JSON object. -/
def c4proseInput : String :=
  "Here is your plan: \x7b\"flow_label\": \"MyFlow\", \"object_api\": \"Case\"\x7d hope it helps"

/-- The bare JSON object inside `c4proseInput`. -/
def c4bareInput : String :=
  "\x7b\"flow_label\": \"MyFlow\", \"object_api\": \"Case\"\x7d"

/-- The decoded value of the object inside `c4proseInput`. -/
def c4expected : Json :=
  .obj [("flow_label", .str "MyFlow"), ("object_api", .str "Case")]

/-- A decoded planner document whose actions list is literally `[]`. -/
def c1WitnessData : Json :=
  .obj [("flow_label", .str "F1"), ("object_api", .str "Case"), ("actions", .arr [])]

/-- A one-action spec for concrete rendering. -/
def specWitness : FlowSpec :=
  ⟨"MyFlow", "Case", "Create", [], [defaultFlowAction]⟩

/-- A session state with a pending modification note and raw input. -/
def c9state : NotificationAgentState :=
  { initNotificationAgent with
    modifications_made := ["Subject 1: Replaced \x27____\x27 with \x27[Address]\x27"]
    raw_input := "leftover" }

/-- A two-project list for concrete resolution tests. -/
def projectsWitness : List Project :=
  [⟨1, "Alpha"⟩, ⟨2, "Beta Project"⟩]

/-! Generic lemmas about the string primitives. -/

theorem startsWithL_nil (p : List Char) (h : startsWithL p [] = true) : p = [] := by
  cases p with
  | nil => rfl
  | cons c cs => simp [startsWithL] at h

theorem startsWithL_eq_append (p : List Char) :
    ∀ s : List Char, startsWithL p s = true → s = p ++ s.drop p.length := by
  induction p with
  | nil => intro s _; simp
  | cons c cs ih =>
    intro s h
    cases s with
    | nil => simp [startsWithL] at h
    | cons d ds =>
      simp only [startsWithL, Bool.and_eq_true, beq_iff_eq] at h
      obtain ⟨rfl, h2⟩ := h
      have := ih ds h2
      simp only [List.cons_append, List.length_cons, List.drop_succ_cons]
      exact congrArg _ this

theorem splitFirst_eq_append (pat : List Char) :
    ∀ s a b : List Char, splitFirst pat s = some (a, b) → s = a ++ pat ++ b := by
  intro s
  induction s with
  | nil =>
    intro a b h
    simp only [splitFirst] at h
    by_cases hs : startsWithL pat [] = true
    · have hp := startsWithL_nil pat hs
      subst hp
      simp [hs] at h
      simp [h.1, h.2]
    · simp [hs] at h
  | cons c cs ih =>
    intro a b h
    simp only [splitFirst] at h
    by_cases hs : startsWithL pat (c :: cs) = true
    · simp only [hs, if_true] at h
      obtain ⟨rfl, rfl⟩ := Prod.mk.injEq _ _ _ _ ▸ Option.some.injEq _ _ ▸ h
      simpa using startsWithL_eq_append pat (c :: cs) hs
    · simp only [hs, if_false, Bool.false_eq_true] at h
      cases hsp : splitFirst pat cs with
      | none => rw [hsp] at h; simp at h
      | some ab =>
        rw [hsp] at h
        cases ab with
        | mk a2 b2 =>
          simp only [Option.some.injEq, Prod.mk.injEq] at h
          obtain ⟨h1, h2⟩ := h
          subst h1; subst h2
          have h3 := ih a2 b2 hsp
          simp [h3]

theorem splitFirst_isSome_cons (pat : List Char) (c : Char) (cs : List Char)
    (h : (splitFirst pat cs).isSome = true) : (splitFirst pat (c :: cs)).isSome = true := by
  simp only [splitFirst]
  by_cases hs : startsWithL pat (c :: cs) = true
  · simp [hs]
  · simp only [hs, if_false, Bool.false_eq_true]
    cases hsp : splitFirst pat cs with
    | none => rw [hsp] at h; simp at h
    | some ab => simp

theorem startsWithL_append_self (p : List Char) : ∀ t, startsWithL p (p ++ t) = true := by
  induction p with
  | nil => intro t; simp [startsWithL]
  | cons c cs ih => intro t; simp [startsWithL, ih]

theorem containsSub_of_eq_append (pat s a b : List Char) (h : s = a ++ pat ++ b) :
    containsSub pat s = true := by
  subst h
  induction a with
  | nil =>
    simp only [containsSub, List.nil_append]
    cases pat with
    | nil => cases b <;> simp [splitFirst, startsWithL]
    | cons p ps =>
      have h2 := startsWithL_append_self (p :: ps) b
      simp only [List.cons_append] at h2
      simp [splitFirst, h2]
  | cons c cs ih =>
    simp only [containsSub] at ih ⊢
    exact splitFirst_isSome_cons _ _ _ ih

theorem containsSub_append_right (pat a b : List Char) (h : containsSub pat b = true) :
    containsSub pat (a ++ b) = true := by
  induction a with
  | nil => simpa using h
  | cons c cs ih =>
    simp only [containsSub] at ih ⊢
    exact splitFirst_isSome_cons _ _ _ ih

theorem splitOnCharL_ne_nil (sep : Char) (s : List Char) : splitOnCharL sep s ≠ [] := by
  cases s with
  | nil => simp [splitOnCharL]
  | cons c cs =>
    simp only [splitOnCharL]
    by_cases h : (c == sep) = true
    · simp [h]
    · simp only [h, if_false, Bool.false_eq_true]
      cases hs : splitOnCharL sep cs with
      | nil => simp
      | cons seg rest => simp

theorem splitSubjAux_ne_nil (ws : Bool) :
    ∀ (fuel : Nat) (acc s : List Char), splitSubjAux ws fuel acc s ≠ [] := by
  intro fuel
  induction fuel with
  | zero => intro acc s; simp [splitSubjAux]
  | succ n ih =>
    intro acc s
    cases s with
    | nil => simp [splitSubjAux]
    | cons c cs =>
      simp only [splitSubjAux]
      by_cases h : ciStartsWith "Subject:".data (c :: cs) = true
      · simp [h]
      · simp only [h, if_false, Bool.false_eq_true]
        exact ih (c :: acc) cs

/-! Association-list lemmas for the session-memory merge. -/

theorem aLookup_aUpdate_eq (k : String) (v : Json) :
    ∀ l : List (String × Json), aLookup k (aUpdate k v l) = some v := by
  intro l
  induction l with
  | nil => simp [aUpdate, aLookup]
  | cons kv rest ih =>
    cases kv with
    | mk k2 w =>
      simp only [aUpdate]
      by_cases h : k2 = k
      · simp [aLookup, h]
      · simp [aLookup, h, ih]

theorem aLookup_aUpdate_ne (k k2 : String) (v : Json) (hne : k2 ≠ k) :
    ∀ l : List (String × Json), aLookup k (aUpdate k2 v l) = aLookup k l := by
  intro l
  induction l with
  | nil => simp [aUpdate, aLookup, hne]
  | cons kv rest ih =>
    cases kv with
    | mk k3 w =>
      simp only [aUpdate]
      by_cases h : k3 = k2
      · subst h
        simp [aLookup, hne]
      · by_cases h2 : k3 = k
        · simp [aLookup, h, h2, Ne.symm hne, ih]
        · simp [aLookup, h, h2, ih]

/-- One step of the merge loop preserves a truthy stored value. -/
theorem merge_step_preserves (k : String) :
    ∀ (e : List (String × Json)) (info : List (String × Json)) (w : Json),
      aLookup k info = some w → jTruthy w = true →
      ∃ w2, aLookup k (merge_extracted info e) = some w2 ∧ jTruthy w2 = true := by
  intro e
  induction e with
  | nil => intro info w h ht; exact ⟨w, h, ht⟩
  | cons kv rest ih =>
    intro info w h ht
    cases kv with
    | mk k2 v2 =>
      simp only [merge_extracted, List.foldl_cons]
      by_cases hc : (jTruthy v2 && aMem k2 info) = true
      · simp only [hc, if_true]
        by_cases hk : k2 = k
        · subst hk
          have hup := aLookup_aUpdate_eq k2 v2 info
          have ht2 : jTruthy v2 = true := by
            simp only [Bool.and_eq_true] at hc
            exact hc.1
          exact ih (aUpdate k2 v2 info) v2 hup ht2
        · have hup := aLookup_aUpdate_ne k k2 v2 hk info
          exact ih (aUpdate k2 v2 info) w (hup.trans h) ht
      · simp only [Bool.not_eq_true] at hc
        simp only [hc, Bool.false_eq_true, if_false]
        exact ih info w h ht

/-- The merge loop never adds a key that is not already a session slot. -/
theorem merge_step_no_new_key (k : String) :
    ∀ (e : List (String × Json)) (info : List (String × Json)),
      aLookup k info = none → aLookup k (merge_extracted info e) = none := by
  intro e
  induction e with
  | nil => intro info h; exact h
  | cons kv rest ih =>
    intro info h
    cases kv with
    | mk k2 v2 =>
      simp only [merge_extracted, List.foldl_cons]
      by_cases hc : (jTruthy v2 && aMem k2 info) = true
      · simp only [hc, if_true]
        by_cases hk : k2 = k
        · subst hk
          simp only [Bool.and_eq_true, aMem, h, Option.isSome_none] at hc
          exact absurd hc.2 (by simp)
        · exact ih (aUpdate k2 v2 info) ((aLookup_aUpdate_ne k k2 v2 hk info).trans h)
      · simp only [Bool.not_eq_true] at hc
        simp only [hc, Bool.false_eq_true, if_false]
        exact ih info h

/-- The merge loop ignores bindings whose value is falsy. -/
theorem merge_skips_falsy (k : String) :
    ∀ (e : List (String × Json)) (info : List (String × Json)),
      (∀ kv, kv ∈ e → kv.1 = k → jTruthy kv.2 = false) →
      aLookup k (merge_extracted info e) = aLookup k info := by
  intro e
  induction e with
  | nil => intro info _; rfl
  | cons kv rest ih =>
    intro info hall
    cases kv with
    | mk k2 v2 =>
      simp only [merge_extracted, List.foldl_cons]
      have hrest : ∀ kv, kv ∈ rest → kv.1 = k → jTruthy kv.2 = false :=
        fun kv hm => hall kv (List.mem_cons_of_mem _ hm)
      by_cases hc : (jTruthy v2 && aMem k2 info) = true
      · simp only [hc, if_true]
        by_cases hk : k2 = k
        · subst hk
          have := hall (k2, v2) (List.mem_cons_self _ _) rfl
          simp only [Bool.and_eq_true] at hc
          rw [this] at hc
          exact absurd hc.1 (by simp)
        · have hup := aLookup_aUpdate_ne k k2 v2 hk info
          exact (ih (aUpdate k2 v2 info) hrest).trans hup
      · simp only [Bool.not_eq_true] at hc
        simp only [hc, Bool.false_eq_true, if_false]
        exact ih info hrest

/-- C9: the claim says `reset` returns every `ExtractionSession` field to
its constructor value; on a state with a pending modification note and
raw input, `reset` leaves both `modifications_made` and `raw_input`
unchanged, so the reset state is not the initial state. -/
theorem reset_counterexample :
    (notificationReset c9state).modifications_made ≠ initNotificationAgent.modifications_made ∧
    (notificationReset c9state).raw_input ≠ initNotificationAgent.raw_input := by
  constructor
  · decide
  · decide

/-- C9 (amended): `NotificationAgent.reset` returns the conversation
history, the record list, the validation-error list and the state tag to
their constructor values, and leaves `modifications_made` and
`raw_input` unchanged. -/
theorem reset_clears_four_fields (s : NotificationAgentState) :
    (notificationReset s).conversation_history = [] ∧
    (notificationReset s).notification_data = .arr [] ∧
    (notificationReset s).validation_errors = [] ∧
    (notificationReset s).state = "validating" ∧
    (notificationReset s).modifications_made = s.modifications_made ∧
    (notificationReset s).raw_input = s.raw_input :=
  ⟨rfl, rfl, rfl, rfl, rfl, rfl⟩

/-- C10: the merge step of `process_user_response` skips falsy extracted
values, so once a session slot holds a truthy value, any sequence of
merge turns leaves a truthy value there: a captured field is never
cleared back to null or the empty string. -/
theorem extracted_info_never_cleared :
    ∀ (info : List (String × Json)) (extrs : List (List (String × Json))) (k : String) (v : Json),
      aLookup k info = some v → jTruthy v = true →
      ∃ w, aLookup k (extrs.foldl merge_extracted info) = some w ∧ jTruthy w = true := by
  intro info extrs
  induction extrs generalizing info with
  | nil => intro k v h ht; exact ⟨v, h, ht⟩
  | cons e rest ih =>
    intro k v h ht
    simp only [List.foldl_cons]
    obtain ⟨w2, hw2, ht2⟩ := merge_step_preserves k e info v h ht
    exact ih (merge_extracted info e) k w2 hw2 ht2

/-- C10 witness: a captured subject survives a null and an empty-string
extraction. -/
theorem extracted_info_never_cleared_witness :
    ∃ w, aLookup "subject"
      ([[("subject", Json.null)], [("subject", Json.str "")]].foldl merge_extracted
        (aUpdate "subject" (Json.str "Fix login bug") extractedInfoInit)) = some w ∧
      jTruthy w = true :=
  extracted_info_never_cleared _ _ "subject" (Json.str "Fix login bug") (by rfl) (by rfl)

/-- With unique keys, every `project_name` binding after nulling the
field is null. -/
theorem aUpdate_unique_value (k : String) (v : Json) :
    ∀ l : List (String × Json), (l.map Prod.fst).Nodup →
      ∀ kv, kv ∈ aUpdate k v l → kv.1 = k → kv.2 = v := by
  intro l
  induction l with
  | nil =>
    intro _ kv hm _
    simp only [aUpdate, List.mem_singleton] at hm
    simp [hm]
  | cons hd rest ih =>
    intro hnd kv hm hk
    cases hd with
    | mk k2 w =>
      simp only [List.map_cons, List.nodup_cons] at hnd
      simp only [aUpdate] at hm
      by_cases h2 : k2 = k
      · simp only [h2, if_true] at hm
        rcases List.mem_cons.mp hm with heq | htl
        · simp [heq]
        · exfalso
          apply hnd.1
          have : kv.1 ∈ rest.map Prod.fst := List.mem_map_of_mem _ htl
          rw [hk, ← h2] at this
          exact this
      · simp only [h2, if_false, Bool.false_eq_true] at hm
        rcases List.mem_cons.mp hm with heq | htl
        · exfalso; apply h2; rw [← hk, heq]
        · exact ih hnd.2 kv htl hk

/-- C8: the requirements engine merges only allowlisted fields (a key
absent from the session memory is never added); project-name resolution
returns an exact case-insensitive match when one exists, returns `none`
exactly when no exact and no substring match exists, and an unresolved
extracted name is nulled out by `_extract_information` and therefore
never merged over the stored value. -/
theorem requirements_merge_resolution :
    ∀ (info extr : List (String × Json)) (projects : List Project) (nm k : String),
      (aLookup k info = none → aLookup k (merge_extracted info extr) = none) ∧
      ((∃ p, p ∈ projects ∧ pyLower p.name = pyLower nm) →
        ∃ p, get_project_by_name projects nm = some p ∧ p ∈ projects ∧
          pyLower p.name = pyLower nm) ∧
      (get_project_by_name projects nm = none ↔
        ∀ p, p ∈ projects → pyLower p.name ≠ pyLower nm ∧
          containsSub (pyLower nm).data (pyLower p.name).data = false) ∧
      (aLookup "project_name" extr = some (.str nm) → nm ≠ "" →
        get_project_by_name projects nm = none →
        resolve_project_name projects extr = .ok (aUpdate "project_name" Json.null extr) ∧
        ((extr.map Prod.fst).Nodup →
          aLookup "project_name"
            (merge_extracted info (aUpdate "project_name" Json.null extr)) =
            aLookup "project_name" info)) := by
  intro info extr projects nm k
  refine ⟨merge_step_no_new_key k extr info, ?_, ?_, ?_⟩
  · rintro ⟨p, hp, hex⟩
    have hsome : (projects.find? (fun q => pyLower q.name == pyLower nm)).isSome := by
      apply List.find?_isSome.mpr
      exact ⟨p, hp, by simpa using hex⟩
    cases hfind : projects.find? (fun q => pyLower q.name == pyLower nm) with
    | none => rw [hfind] at hsome; simp at hsome
    | some q =>
      refine ⟨q, ?_, List.mem_of_find?_eq_some hfind, ?_⟩
      · simp [get_project_by_name, hfind]
      · have := List.find?_some hfind
        simpa using this
  · constructor
    · intro hnone p hp
      cases hfind : projects.find? (fun q => pyLower q.name == pyLower nm) with
      | some q => simp [get_project_by_name, hfind] at hnone
      | none =>
        have h1 := List.find?_eq_none.mp hfind p hp
        simp only [get_project_by_name, hfind] at hnone
        have h2 := List.find?_eq_none.mp hnone p hp
        constructor
        · simpa using h1
        · simpa using h2
    · intro hall
      have h1 : projects.find? (fun q => pyLower q.name == pyLower nm) = none := by
        apply List.find?_eq_none.mpr
        intro p hp
        simpa using (hall p hp).1
      have h2 : projects.find? (fun q => containsSub (pyLower nm).data (pyLower q.name).data) = none := by
        apply List.find?_eq_none.mpr
        intro p hp
        simpa using (hall p hp).2
      simp [get_project_by_name, h1, h2]
  · intro hlk hne hnone
    have hres : resolve_project_name projects extr = .ok (aUpdate "project_name" Json.null extr) := by
      have hget : aGetD extr "project_name" Json.null = .str nm := by
        simp [aGetD, hlk]
      have htr : jTruthy (Json.str nm) = true := by
        simpa [jTruthy] using hne
      simp [resolve_project_name, hget, htr, hnone]
    refine ⟨hres, ?_⟩
    intro hnd
    apply merge_skips_falsy
    intro kv hm hk
    have := aUpdate_unique_value "project_name" Json.null extr hnd kv hm hk
    simp [this, jTruthy]

/-- C8 witness: an unresolved project name (`Zeta`) is nulled out and the
stored slot is untouched; an unlisted key is never added; the resolver
finds nothing for `Zeta` in the two-project list. -/
theorem requirements_merge_resolution_witness :
    aLookup "bogus_key" (merge_extracted extractedInfoInit [("project_name", Json.str "Zeta")]) = none ∧
    get_project_by_name projectsWitness "Zeta" = none ∧
    resolve_project_name projectsWitness [("project_name", Json.str "Zeta")] =
      .ok (aUpdate "project_name" Json.null [("project_name", Json.str "Zeta")]) ∧
    aLookup "project_name"
      (merge_extracted extractedInfoInit
        (aUpdate "project_name" Json.null [("project_name", Json.str "Zeta")])) =
      aLookup "project_name" extractedInfoInit := by
  have h := requirements_merge_resolution extractedInfoInit [("project_name", Json.str "Zeta")]
    projectsWitness "Zeta" "bogus_key"
  have hnone : get_project_by_name projectsWitness "Zeta" = none := by
    apply h.2.2.1.mpr
    intro p hp
    fin_cases hp <;> exact ⟨by decide, by decide⟩
  have h4 := h.2.2.2 (by rfl) (by decide) hnone
  exact ⟨h.1 (by rfl), hnone, h4.1, h4.2 (by decide)⟩

/-- C7: whenever the LLM call raises, or its response fails JSON
parsing, or the parsed response lacks the key `rows`, the correction
path records exactly one failure message and leaves the stored
notification records unchanged. -/
theorem correction_error_leaves_state :
    ∀ (chatResult : Except String String) (ndata : Json) (errors : List String),
      ((∃ e, chatResult = .error e) ∨
       (∃ r, chatResult = .ok r ∧ ∃ e, pyJsonLoads r = .error e) ∨
       (∃ r p, chatResult = .ok r ∧ pyJsonLoads r = .ok p ∧ pyInRows p = .ok false)) →
      (apply_correction_with_llm chatResult ndata errors).1 = ndata ∧
      ∃ m, (apply_correction_with_llm chatResult ndata errors).2 = errors ++ [m] := by
  intro chatResult ndata errors h
  rcases h with ⟨e, rfl⟩ | ⟨r, rfl, e, hj⟩ | ⟨r, p, rfl, hj, hrows⟩
  · exact ⟨rfl, "Failed to apply correction: " ++ e, rfl⟩
  · simp only [apply_correction_with_llm, hj]
    exact ⟨trivial, "Failed to apply correction: " ++ e, rfl⟩
  · simp only [apply_correction_with_llm, hj, hrows]
    exact ⟨trivial, "Could not apply corrections. Please paste the corrected table.", rfl⟩

/-- C7 witness: a prose (non-JSON) LLM reply leaves the record list
unchanged and appends one failure message. -/
theorem correction_error_leaves_state_witness :
    (apply_correction_with_llm (.ok "sorry, cannot help") (Json.arr []) ["old"]).1 = Json.arr [] ∧
    ∃ m, (apply_correction_with_llm (.ok "sorry, cannot help") (Json.arr []) ["old"]).2 =
      ["old"] ++ [m] :=
  correction_error_leaves_state (.ok "sorry, cannot help") (Json.arr []) ["old"]
    (Or.inr (Or.inl ⟨"sorry, cannot help", rfl, "Expecting value", by rfl⟩))

/-- Every block yields a record: the `continue` guard of the parse loop
is unreachable because Python `str.split` never returns an empty list. -/
theorem processBlock_isSome (ss : List (List Char)) (i : Nat) (block : List Char) :
    (processBlock ss i block).isSome = true := by
  cases h : splitOnCharL '\n' (pyStripL block) with
  | nil => exact absurd h (splitOnCharL_ne_nil _ _)
  | cons l0 rest => simp [processBlock, h]

/-- The parse loop appends exactly one record per segment. -/
theorem parseBlocksGo_length (ss : List (List Char)) :
    ∀ (parts : List (List Char)) (i : Nat),
      (parseBlocksGo ss i parts).1.length = parts.length := by
  intro parts
  induction parts with
  | nil => intro i; rfl
  | cons b rest ih =>
    intro i
    have hsome := processBlock_isSome ss i b
    cases h : processBlock ss i b with
    | none => rw [h] at hsome; simp at hsome
    | some rm =>
      simp only [parseBlocksGo, h]
      cases rm
      simp [ih]

/-- C5: for every input text, `_parse_and_validate` produces exactly one
record per declared subject segment, so its record count always equals
the declared count `N` and no validation error — in particular the
count-mismatch error — is ever reported by the parse path. -/
theorem parse_never_mismatch (text : String) :
    (parse_and_validate text).errors = [] ∧
    (parse_and_validate text).records.length = num_subjects text := by
  have hlines := splitOnCharL_ne_nil '\n' (pyStripL text.data)
  cases hsplit : splitOnCharL '\n' (pyStripL text.data) with
  | nil => exact absurd hsplit hlines
  | cons l0 ls =>
    have hparts0 : splitSubject true text.data ≠ [] := splitSubjAux_ne_nil true _ [] _
    cases hparts : splitSubject true text.data with
    | nil => exact absurd hparts hparts0
    | cons p0 ps =>
      have hlen := parseBlocksGo_length (splitSubject false text.data)
      cases ps with
      | nil => simp [parse_and_validate, num_subjects, hsplit, hparts, hlen]
      | cons p1 ps2 => simp [parse_and_validate, num_subjects, hsplit, hparts, hlen]

set_option maxRecDepth 200000 in
/-- C6 counterexample: on the scenario input the placeholder text sits
before `Subject:` and is discarded from the subject, so the produced
record's subject is plain `App Submitted` — it contains neither
`[Application]` nor `[Address]` — and no modification note is logged,
while the claim requires both substitutions and their notes. -/
theorem scenario_no_substitution :
    (parse_and_validate c6input).mods = [] ∧
    (parse_and_validate c6input).records.map NotifRecord.subject = ["App Submitted"] ∧
    strContains "[Application]" "App Submitted" = false ∧
    strContains "[Address]" "App Submitted" = false :=
  ⟨by rfl, by rfl, by rfl, by rfl⟩

set_option maxRecDepth 200000 in
/-- C6 (amended): on the scenario input `_parse_and_validate` produces
exactly one record, whose milestone is the discarded prose
`Application____ ____` before the marker, whose subject is
`App Submitted` and whose email is the second line; no placeholder
substitution fires and no modification note is logged. -/
theorem scenario_actual_record :
    parse_and_validate c6input =
      ⟨[⟨"Application____ ____", "App Submitted", "Your app has been submitted."⟩], [], []⟩ := by
  rfl

/-- A decisions block with both location tags, a rules block and no
legacy reference is left unchanged by the decisions repair. -/
theorem fixDecision_id (b : List Char) (h : decBlockOK b = true) : fixDecisionBlock b = (b, []) := by
  simp only [decBlockOK, Bool.and_eq_true, beq_iff_eq] at h
  obtain ⟨⟨⟨hx, hy⟩, hr⟩, hleg⟩ := h
  simp [fixDecisionBlock, ensure_xy_in_block, hx, hy, ensure_decision_rules, hr, hleg]

/-- A recordCreates block with both location tags and a connector is
left unchanged by its repair. -/
theorem fixRecordCreates_id (b : List Char) (h : connBlockOK b = true) :
    fixRecordCreatesBlock b = (b, []) := by
  simp only [connBlockOK, Bool.and_eq_true] at h
  obtain ⟨⟨hx, hy⟩, hc⟩ := h
  simp [fixRecordCreatesBlock, ensure_xy_in_block, hx, hy, ensure_connector_to_done, hc]

/-- An actionCalls block with both location tags and a connector is left
unchanged by its repair. -/
theorem fixActionCalls_id (b : List Char) (h : connBlockOK b = true) :
    fixActionCallsBlock b = (b, []) := by
  simp only [connBlockOK, Bool.and_eq_true] at h
  obtain ⟨⟨hx, hy⟩, hc⟩ := h
  simp [fixActionCallsBlock, ensure_xy_in_block, hx, hy, ensure_connector_to_done, hc]

/-- A start block that already has both location tags is left unchanged. -/
theorem startStage_id (s : List Char) (h : startBlockOK s = true) : startStage s = (s, []) := by
  unfold startBlockOK at h
  cases h1 : splitFirst "<start>".data s with
  | none => simp [startStage, h1]
  | some pr =>
    cases pr with
    | mk pre rest =>
      cases h2 : splitFirst "</start>".data rest with
      | none => simp [startStage, h1, h2]
      | some mr =>
        cases mr with
        | mk mid rest2 =>
          rw [h1] at h
          simp only [] at h
          rw [h2] at h
          simp only [Bool.and_eq_true, List.cons_append, List.nil_append] at h
          simp [startStage, h1, h2, h.1, h.2]

/-- A non-greedy substitution pass whose transformer fixes nothing on
any matched block returns the text unchanged and reports nothing. -/
theorem subNGAux_id (openT closeT : List Char) (g : List Char → List Char × List String) :
    ∀ (fuel : Nat) (s : List Char),
      (∀ b ∈ blocksNG openT closeT fuel s, g b = (b, [])) →
      subNGAux openT closeT g fuel s = (s, []) := by
  intro fuel
  induction fuel with
  | zero => intro s _; rfl
  | succ n ih =>
    intro s hall
    cases h1 : splitFirst openT s with
    | none => simp [subNGAux, h1]
    | some pr =>
      cases pr with
      | mk pre rest =>
        cases h2 : splitFirst closeT rest with
        | none => simp [subNGAux, h1, h2]
        | some mr =>
          cases mr with
          | mk mid rest2 =>
            simp only [blocksNG, h1, h2] at hall
            have hb := hall _ (List.mem_cons_self _ _)
            have hrest : ∀ b ∈ blocksNG openT closeT n rest2, g b = (b, []) :=
              fun b hm => hall b (List.mem_cons_of_mem _ hm)
            have hs1 := splitFirst_eq_append openT s pre rest h1
            have hs2 := splitFirst_eq_append closeT rest mid rest2 h2
            simp only [subNGAux, h1, h2, hb, ih rest2 hrest]
            simp only [Prod.mk.injEq, List.append_nil, List.nil_append, and_true]
            rw [hs1, hs2]
            simp [List.append_assoc]

/-- A fully fixed document is a fixed point of `autofix` that reports no
fixes. -/
theorem autofix_fixed (s : List Char) (h : fullyFixed s = true) : autofixL s = (s, []) := by
  simp only [fullyFixed, Bool.and_eq_true, List.all_eq_true] at h
  obtain ⟨⟨⟨hstart, hdec⟩, hrc⟩, hac⟩ := h
  have h1 : startStage s = (s, []) := startStage_id s hstart
  have h2 : subNG "<decisions>" "</decisions>" fixDecisionBlock s = (s, []) :=
    subNGAux_id _ _ _ _ s (fun b hb => fixDecision_id b (hdec b hb))
  have h3 : subNG "<recordCreates>" "</recordCreates>" fixRecordCreatesBlock s = (s, []) :=
    subNGAux_id _ _ _ _ s (fun b hb => fixRecordCreates_id b (hrc b hb))
  have h4 : subNG "<actionCalls>" "</actionCalls>" fixActionCallsBlock s = (s, []) :=
    subNGAux_id _ _ _ _ s (fun b hb => fixActionCalls_id b (hac b hb))
  simp [autofixL, h1, h2, h3, h4]

set_option maxRecDepth 400000 in
/-- C2 counterexample: on a decisions element with neither `</label>`
nor `</name>`, the first pass appends its snippets after
`</decisions>`, outside the region a second pass re-matches, so the
second application changes the text again and reports another fix —
`autofix` is not idempotent on every input string. -/
theorem autofix_not_idempotent :
    (autofix_locations_and_connectors (autofix_locations_and_connectors autofixCounterInput).1).1 ≠
      (autofix_locations_and_connectors autofixCounterInput).1 ∧
    (autofix_locations_and_connectors (autofix_locations_and_connectors autofixCounterInput).1).2 ≠
      [] := by
  constructor
  · decide
  · decide

/-- C2 (amended): applying `autofix` a second time returns the first
result unchanged with an empty fixes list whenever the first result is
fully fixed — that is, whenever its start block and every decisions /
recordCreates / actionCalls block already carry the location tags,
connectors and rules the passes inject (decisions blocks also free of
legacy `$GlobalConstant.False` references).  In general a second
application can inject again: when a block lacks both `</label>` and
`</name>`, the first pass appends its snippets after the block's closing
tag, where the second pass does not see them. -/
theorem autofix_idempotent_on_fixed (xml : String)
    (h : fullyFixed (autofix_locations_and_connectors xml).1.data = true) :
    autofix_locations_and_connectors (autofix_locations_and_connectors xml).1 =
      ((autofix_locations_and_connectors xml).1, []) := by
  have h2 := autofix_fixed (autofix_locations_and_connectors xml).1.data h
  simp only [autofix_locations_and_connectors] at h2 ⊢
  simp [h2]

set_option maxRecDepth 400000 in
/-- C2 witness: a recordCreates element with a label but no location
tags or connector is repaired by the first pass, the repaired text is
fully fixed, and the second pass is the identity with no fixes. -/
theorem autofix_idempotent_on_fixed_witness :
    fullyFixed (autofix_locations_and_connectors autofixWitnessInput).1.data = true ∧
    autofix_locations_and_connectors (autofix_locations_and_connectors autofixWitnessInput).1 =
      ((autofix_locations_and_connectors autofixWitnessInput).1, []) :=
  ⟨by rfl, autofix_idempotent_on_fixed autofixWitnessInput (by rfl)⟩

/-- A pattern occurring in a prefix occurs in the whole. -/
theorem containsSub_append_left (pat a b : List Char) (h : containsSub pat a = true) :
    containsSub pat (a ++ b) = true := by
  unfold containsSub at h
  cases hs : splitFirst pat a with
  | none => rw [hs] at h; simp at h
  | some pr =>
    cases pr with
    | mk x y =>
      have hx := splitFirst_eq_append pat a x y hs
      apply containsSub_of_eq_append pat _ x (y ++ b)
      rw [hx]
      simp [List.append_assoc]

/-- Both rendered element kinds begin with their tag and contain a
connector; the created-task element also never looks like an action
call, and vice versa. -/
theorem ct_elem_starts (sn : String) (act : FlowAction) (addXy : Bool) :
    strStarts "  <recordCreates>" (create_task_call_xml sn act addXy).1 = true ∧
    strStarts "  <actionCalls>" (create_task_call_xml sn act addXy).1 = false ∧
    isStartPart (create_task_call_xml sn act addXy).1 = false :=
  ⟨rfl, rfl, rfl⟩

theorem se_elem_starts (sn : String) (act : FlowAction) (addXy : Bool) :
    strStarts "  <actionCalls>" (send_email_action_xml sn act addXy).1 = true ∧
    strStarts "  <recordCreates>" (send_email_action_xml sn act addXy).1 = false ∧
    isStartPart (send_email_action_xml sn act addXy).1 = false :=
  ⟨rfl, rfl, rfl⟩

theorem ct_elem_connector (sn : String) (act : FlowAction) (addXy : Bool) :
    strContains "<connector>" (create_task_call_xml sn act addXy).1 = true := by
  unfold strContains create_task_call_xml
  simp only [String.data_append, List.append_assoc]
  apply containsSub_append_right
  apply containsSub_append_right
  apply containsSub_append_right
  apply containsSub_append_right
  apply containsSub_append_right
  apply containsSub_append_right
  apply containsSub_append_right
  apply containsSub_append_right
  decide

theorem se_elem_connector (sn : String) (act : FlowAction) (addXy : Bool) :
    strContains "<connector>" (send_email_action_xml sn act addXy).1 = true := by
  unfold strContains send_email_action_xml
  simp only [String.data_append, List.append_assoc]
  apply containsSub_append_right
  apply containsSub_append_right
  apply containsSub_append_right
  apply containsSub_append_right
  apply containsSub_append_right
  apply containsSub_append_right
  apply containsSub_append_left
  decide

/-- The step-name tag occurs in a recordCreates element: its `<name>`
opener ends the leading literal and its closer starts the following
literal. -/
theorem nameTag_sandwich_rc (ti R : List Char) :
    containsSub ("<name>step".data ++ (ti ++ "</name>".data))
      ("  <recordCreates>\n    <name>".data ++
        ("step".data ++ (ti ++ ("</name>\n    <label>".data ++ R)))) = true := by
  apply containsSub_of_eq_append _ _ "  <recordCreates>\n    ".data ("\n    <label>".data ++ R)
  have h1 : ("  <recordCreates>\n    <name>".data ++ "step".data : List Char) =
      "  <recordCreates>\n    ".data ++ "<name>step".data := by decide
  have h2 : ("</name>\n    <label>".data : List Char) =
      "</name>".data ++ "\n    <label>".data := by decide
  rw [h2]
  simp only [← List.append_assoc]
  rw [h1]

/-- The step-name tag occurs in an actionCalls element. -/
theorem nameTag_sandwich_ac (ti R : List Char) :
    containsSub ("<name>step".data ++ (ti ++ "</name>".data))
      ("  <actionCalls>\n    <name>".data ++
        ("step".data ++ (ti ++ ("</name>\n    <label>".data ++ R)))) = true := by
  apply containsSub_of_eq_append _ _ "  <actionCalls>\n    ".data ("\n    <label>".data ++ R)
  have h1 : ("  <actionCalls>\n    <name>".data ++ "step".data : List Char) =
      "  <actionCalls>\n    ".data ++ "<name>step".data := by decide
  have h2 : ("</name>\n    <label>".data : List Char) =
      "</name>".data ++ "\n    <label>".data := by decide
  rw [h2]
  simp only [← List.append_assoc]
  rw [h1]

/-- The created-task element carries the `<name>step<i></name>` tag. -/
theorem ct_elem_nameTag (i : Nat) (act : FlowAction) (addXy : Bool) :
    strContains (stepNameTag i) (create_task_call_xml ("step" ++ toString i) act addXy).1 = true := by
  unfold strContains stepNameTag create_task_call_xml
  simp only [String.data_append, List.append_assoc]
  exact nameTag_sandwich_rc _ _

/-- The send-email element carries the `<name>step<i></name>` tag. -/
theorem se_elem_nameTag (i : Nat) (act : FlowAction) (addXy : Bool) :
    strContains (stepNameTag i) (send_email_action_xml ("step" ++ toString i) act addXy).1 = true := by
  unfold strContains stepNameTag send_email_action_xml
  simp only [String.data_append, List.append_assoc]
  exact nameTag_sandwich_ac _ _

/-- The start block begins with the start-element reference and holds a
connector. -/
theorem start_block_shape (spec : FlowSpec) (addXy : Bool) (sb : String)
    (h : start_block spec addXy = .ok sb) :
    isStartPart sb = true ∧ strStarts "  <recordCreates>" sb = false ∧
    strStarts "  <actionCalls>" sb = false ∧ strContains "<connector>" sb = true := by
  unfold start_block at h
  simp only [Bind.bind, Except.bind] at h
  split at h
  · cases hm : spec.conditions.mapM (condFilterXml spec.object_api) with
    | error e => rw [hm] at h; simp at h
    | ok fs =>
      rw [hm] at h
      simp only [pure, Except.pure, Except.ok.injEq] at h
      subst h
      refine ⟨rfl, rfl, rfl, ?_⟩
      unfold strContains
      simp only [String.data_append, List.append_assoc]
      apply containsSub_append_right
      apply containsSub_append_right
      apply containsSub_append_left
      decide
  · split at h
    · cases hm : spec.conditions.mapM (condFilterXml spec.object_api) with
      | error e => rw [hm] at h; simp at h
      | ok fs =>
        rw [hm] at h
        simp only [pure, Except.pure, Except.ok.injEq] at h
        subst h
        refine ⟨rfl, rfl, rfl, ?_⟩
        unfold strContains
        simp only [String.data_append, List.append_assoc]
        apply containsSub_append_right
        apply containsSub_append_right
        apply containsSub_append_left
        decide
    · split at h
      · cases hm : spec.conditions.mapM (condFilterXml spec.object_api) with
        | error e => rw [hm] at h; simp at h
        | ok fs =>
          rw [hm] at h
          simp only [pure, Except.pure, Except.ok.injEq] at h
          subst h
          refine ⟨rfl, rfl, rfl, ?_⟩
          unfold strContains
          simp only [String.data_append, List.append_assoc]
          apply containsSub_append_right
          apply containsSub_append_right
          apply containsSub_append_left
          decide
      · simp at h

/-- An action renders exactly when its type is recognized. -/
theorem actionElem_isSome (addXy : Bool) (i : Nat) (a : FlowAction) :
    (actionElem addXy i a).isSome = isRecognizedAction a := by
  unfold actionElem isRecognizedAction
  by_cases h1 : a.type = "create_task"
  · simp [h1]
  · by_cases h2 : a.type = "send_email"
    · simp [h1, h2]
    · simp [h1, h2]

/-- The action loop renders one element per recognized action. -/
theorem actionLoop_length (addXy : Bool) :
    ∀ (acts : List FlowAction) (i : Nat),
      (actionLoop addXy acts i).length = (acts.filter isRecognizedAction).length := by
  intro acts
  induction acts with
  | nil => intro i; rfl
  | cons a rest ih =>
    intro i
    have hsome := actionElem_isSome addXy i a
    cases h : actionElem addXy i a with
    | none =>
      rw [h] at hsome
      simp only [actionLoop, h]
      rw [List.filter_cons, ← hsome]
      simp [ih]
    | some e =>
      rw [h] at hsome
      simp only [actionLoop, h]
      rw [List.filter_cons, ← hsome]
      simp [ih]

/-- Every element the loop renders begins with its element tag and
contains a connector. -/
theorem actionLoop_mem_shape (addXy : Bool) :
    ∀ (acts : List FlowAction) (i : Nat) (e : String), e ∈ actionLoop addXy acts i →
      (strStarts "  <recordCreates>" e || strStarts "  <actionCalls>" e) = true ∧
      strContains "<connector>" e = true ∧ isStartPart e = false := by
  intro acts
  induction acts with
  | nil => intro i e hm; simp [actionLoop] at hm
  | cons a rest ih =>
    intro i e hm
    by_cases h1 : a.type = "create_task"
    · simp only [actionLoop, actionElem, h1, if_true] at hm
      rcases List.mem_cons.mp hm with rfl | hm2
      · exact ⟨by simp [(ct_elem_starts _ a addXy).1], ct_elem_connector _ a addXy,
          (ct_elem_starts _ a addXy).2.2⟩
      · exact ih (i + 1) e hm2
    · by_cases h2 : a.type = "send_email"
      · simp only [actionLoop, actionElem, h1, h2, if_false, if_true, Bool.false_eq_true] at hm
        rcases List.mem_cons.mp hm with rfl | hm2
        · exact ⟨by simp [(se_elem_starts _ a addXy).1], se_elem_connector _ a addXy,
            (se_elem_starts _ a addXy).2.2⟩
        · exact ih (i + 1) e hm2
      · simp only [actionLoop, actionElem, h1, h2, if_false, Bool.false_eq_true] at hm
        exact ih (i + 1) e hm

/-- The `j`-th action (0-based), when recognized, renders an element in
the loop that carries the `step<i+j>` name tag and the element kind of
its type. -/
theorem actionLoop_mem_named (addXy : Bool) :
    ∀ (acts : List FlowAction) (i j : Nat) (hj : j < acts.length),
      isRecognizedAction (acts.get ⟨j, hj⟩) = true →
      ∃ e, e ∈ actionLoop addXy acts i ∧
        strContains (stepNameTag (i + j)) e = true ∧
        ((acts.get ⟨j, hj⟩).type = "create_task" → strStarts "  <recordCreates>" e = true) ∧
        ((acts.get ⟨j, hj⟩).type = "send_email" → strStarts "  <actionCalls>" e = true) := by
  intro acts
  induction acts with
  | nil => intro i j hj; simp at hj
  | cons a rest ih =>
    intro i j hj hrec
    cases j with
    | zero =>
      simp only [List.get] at hrec ⊢
      by_cases h1 : a.type = "create_task"
      · refine ⟨(create_task_call_xml ("step" ++ toString i) a addXy).1, ?_, ?_, ?_, ?_⟩
        · simp [actionLoop, actionElem, h1]
        · simpa using ct_elem_nameTag i a addXy
        · intro _; exact (ct_elem_starts _ a addXy).1
        · intro hse; rw [h1] at hse; exact absurd hse (by decide)
      · have h2 : a.type = "send_email" := by
          unfold isRecognizedAction at hrec
          simp only [Bool.or_eq_true, beq_iff_eq] at hrec
          rcases hrec with hc | hs
          · exact absurd hc h1
          · exact hs
        refine ⟨(send_email_action_xml ("step" ++ toString i) a addXy).1, ?_, ?_, ?_, ?_⟩
        · simp [actionLoop, actionElem, h1, h2]
        · simpa using se_elem_nameTag i a addXy
        · intro hct; exact absurd hct h1
        · intro _; exact (se_elem_starts _ a addXy).1
    | succ j2 =>
      have hj2 : j2 < rest.length := Nat.lt_of_succ_lt_succ hj
      have hrec2 : isRecognizedAction (rest.get ⟨j2, hj2⟩) = true := by
        simpa using hrec
      obtain ⟨e, hme, hname, hct, hse⟩ := ih (i + 1) j2 hj2 hrec2
      refine ⟨e, ?_, ?_, ?_, ?_⟩
      · cases hae : actionElem addXy i a with
        | none => simp only [actionLoop, hae]; exact hme
        | some e2 => simp only [actionLoop, hae]; exact List.mem_cons_of_mem _ hme
      · have : i + 1 + j2 = i + (j2 + 1) := by omega
        rw [← this]
        exact hname
      · simpa using hct
      · simpa using hse

/-- C3: whenever `build_flow_xml` renders a spec with a non-empty
actions list, the parts list holds exactly one start element, exactly
one rendered element (a recordCreates for `create_task`, an actionCalls
for `send_email`) per recognized action, the `j`-th action's element
(1-based) carries the `step<j>` name tag, and every rendered element —
start block included — contains a connector. -/
theorem build_flow_xml_structure :
    ∀ (spec : FlowSpec) (cfg : Option (List (String × Json))) (parts : List String),
      spec.actions ≠ [] →
      build_flow_parts spec cfg = .ok parts →
      parts.countP isStartPart = 1 ∧
      parts.countP (fun p => strStarts "  <recordCreates>" p || strStarts "  <actionCalls>" p) =
        (spec.actions.filter isRecognizedAction).length ∧
      (∀ p ∈ parts,
        (isStartPart p || strStarts "  <recordCreates>" p || strStarts "  <actionCalls>" p) = true →
        strContains "<connector>" p = true) ∧
      (∀ j (hj : j < spec.actions.length),
        isRecognizedAction (spec.actions.get ⟨j, hj⟩) = true →
        ∃ e, e ∈ parts ∧ strContains (stepNameTag (j + 1)) e = true ∧
          ((spec.actions.get ⟨j, hj⟩).type = "create_task" →
            strStarts "  <recordCreates>" e = true) ∧
          ((spec.actions.get ⟨j, hj⟩).type = "send_email" →
            strStarts "  <actionCalls>" e = true)) := by
  intro spec cfg parts hne h
  unfold build_flow_parts at h
  simp only [Bind.bind, Except.bind] at h
  cases hc : cfgFlagsE cfg with
  | error e => rw [hc] at h; simp at h
  | ok flags =>
    rw [hc] at h
    simp only [] at h
    cases hsb : start_block spec flags.1 with
    | error e => rw [hsb] at h; simp at h
    | ok sb =>
      rw [hsb] at h
      simp only [pure, Except.pure, Except.ok.injEq] at h
      subst h
      obtain ⟨hsb1, hsb2, hsb3, hsb4⟩ := start_block_shape spec flags.1 sb hsb
      have hloopS := actionLoop_mem_shape flags.1 spec.actions 1
      refine ⟨?_, ?_, ?_, ?_⟩
      · simp only [List.countP_append, List.countP_cons, List.countP_nil]
        have e3 : isStartPart ("  <label>" ++ spec.flow_label ++ "</label>") = false := rfl
        have eloop : (actionLoop flags.1 spec.actions 1).countP isStartPart = 0 :=
          List.countP_eq_zero.mpr (fun e he => by simp [(hloopS e he).2.2])
        have erouter : (if flags.2 then [routerBlock flags.1] else []).countP isStartPart = 0 := by
          cases hf : flags.2
          · simp
          · simp only [if_true]
            simp [List.countP_cons]
            rfl
        rw [show isStartPart xmlHeaderStr = false from rfl,
          show isStartPart ("  <apiVersion>" ++ apiVersion ++ "</apiVersion>") = false from rfl,
          e3, show isStartPart processMetaPart = false from rfl,
          show isStartPart "  <processType>AutoLaunchedFlow</processType>" = false from rfl,
          show isStartPart "  <stages/>\n  <status>Active</status>" = false from rfl,
          show isStartPart xmlFooterStr = false from rfl, hsb1, eloop, erouter]
        simp
      · simp only [List.countP_append, List.countP_cons, List.countP_nil]
        have f3 : (strStarts "  <recordCreates>" ("  <label>" ++ spec.flow_label ++ "</label>") ||
          strStarts "  <actionCalls>" ("  <label>" ++ spec.flow_label ++ "</label>")) = false := rfl
        have fsb : (strStarts "  <recordCreates>" sb || strStarts "  <actionCalls>" sb) = false := by
          rw [hsb2, hsb3]; rfl
        have floop : (actionLoop flags.1 spec.actions 1).countP
            (fun p => strStarts "  <recordCreates>" p || strStarts "  <actionCalls>" p) =
            (actionLoop flags.1 spec.actions 1).length :=
          List.countP_eq_length.mpr (fun e he => by simp [(hloopS e he).1])
        have frouter : (if flags.2 then [routerBlock flags.1] else []).countP
            (fun p => strStarts "  <recordCreates>" p || strStarts "  <actionCalls>" p) = 0 := by
          cases hf : flags.2
          · simp
          · simp only [if_true]
            simp [List.countP_cons]
            exact ⟨rfl, rfl⟩
        rw [show (strStarts "  <recordCreates>" xmlHeaderStr ||
            strStarts "  <actionCalls>" xmlHeaderStr) = false from rfl,
          show (strStarts "  <recordCreates>" ("  <apiVersion>" ++ apiVersion ++ "</apiVersion>") ||
            strStarts "  <actionCalls>" ("  <apiVersion>" ++ apiVersion ++ "</apiVersion>")) = false from rfl,
          f3,
          show (strStarts "  <recordCreates>" processMetaPart ||
            strStarts "  <actionCalls>" processMetaPart) = false from rfl,
          show (strStarts "  <recordCreates>" "  <processType>AutoLaunchedFlow</processType>" ||
            strStarts "  <actionCalls>" "  <processType>AutoLaunchedFlow</processType>") = false from rfl,
          show (strStarts "  <recordCreates>" "  <stages/>\n  <status>Active</status>" ||
            strStarts "  <actionCalls>" "  <stages/>\n  <status>Active</status>") = false from rfl,
          show (strStarts "  <recordCreates>" xmlFooterStr ||
            strStarts "  <actionCalls>" xmlFooterStr) = false from rfl,
          fsb, floop, frouter, actionLoop_length]
        simp
      · intro p hp hpred
        simp only [List.append_assoc, List.mem_append, List.mem_cons,
          List.not_mem_nil, or_false] at hp
        rcases hp with (rfl | rfl | rfl | rfl | rfl | rfl | rfl) | hrouter | hloop | rfl
        · exact absurd hpred (by decide)
        · exact absurd hpred (by decide)
        · rw [show (isStartPart ("  <label>" ++ spec.flow_label ++ "</label>") ||
            strStarts "  <recordCreates>" ("  <label>" ++ spec.flow_label ++ "</label>") ||
            strStarts "  <actionCalls>" ("  <label>" ++ spec.flow_label ++ "</label>")) = false
            from rfl] at hpred
          exact absurd hpred (by decide)
        · exact absurd hpred (by decide)
        · exact absurd hpred (by decide)
        · rw [hsb1] at hpred
          exact hsb4
        · exact absurd hpred (by decide)
        · cases hf : flags.2
          · rw [hf] at hrouter
            simp at hrouter
          · rw [hf] at hrouter
            simp only [if_true, List.mem_cons, List.not_mem_nil, or_false] at hrouter
            subst hrouter
            rw [show (isStartPart (routerBlock flags.1) ||
              strStarts "  <recordCreates>" (routerBlock flags.1) ||
              strStarts "  <actionCalls>" (routerBlock flags.1)) = false from rfl] at hpred
            exact absurd hpred (by decide)
        · exact (hloopS p hloop).2.1
        · exact absurd hpred (by decide)
      · intro j hj hrec
        obtain ⟨e, hme, hname, hct, hse⟩ :=
          actionLoop_mem_named flags.1 spec.actions 1 j hj hrec
        refine ⟨e, ?_, ?_, hct, hse⟩
        · simp only [List.append_assoc, List.mem_append]
          exact Or.inr (Or.inr (Or.inl hme))
        · rw [Nat.add_comm 1 j] at hname
          exact hname

set_option maxRecDepth 400000 in
/-- C3 witness: rendering a one-action spec yields exactly one start
part and exactly one rendered element. -/
theorem build_flow_xml_structure_witness :
    ((build_flow_parts specWitness none).toOption.getD []).countP isStartPart = 1 ∧
    ((build_flow_parts specWitness none).toOption.getD []).countP
      (fun p => strStarts "  <recordCreates>" p || strStarts "  <actionCalls>" p) = 1 := by
  have h := build_flow_xml_structure specWitness none
    ((build_flow_parts specWitness none).toOption.getD []) (by decide) (by rfl)
  exact ⟨h.1, by rw [h.2.1]; rfl⟩

/-- `mapM` over `Except` preserves length on success. -/
theorem mapM_ok_length {α β : Type} (f : α → Except String β) :
    ∀ (xs : List α) (ys : List β), xs.mapM f = .ok ys → ys.length = xs.length := by
  intro xs
  induction xs with
  | nil =>
    intro ys h
    simp only [List.mapM_nil, pure, Except.pure, Except.ok.injEq] at h
    subst h; rfl
  | cons a rest ih =>
    intro ys h
    simp only [List.mapM_cons, Bind.bind, Except.bind] at h
    cases hf : f a with
    | error e => rw [hf] at h; simp at h
    | ok b =>
      rw [hf] at h
      simp only [] at h
      cases hm : rest.mapM f with
      | error e => rw [hm] at h; simp [Except.bind] at h
      | ok bs =>
        rw [hm] at h
        simp only [pure, Except.pure, Except.ok.injEq] at h
        subst h
        simp [ih bs hm]

set_option maxRecDepth 400000 in
/-- C4 counterexample: `parse_spec` performs no brace extraction — on a
reply with prose around a valid JSON object (whose presence `try_parse`
demonstrates by extracting it), `parse_spec` raises a JSON parse error
instead of returning a `FlowSpec`. -/
theorem parse_spec_prose_counterexample :
    try_parse c4proseInput = some c4expected ∧
    parse_spec c4proseInput = .error "Expecting value" := by
  constructor
  · rfl
  · rfl

set_option maxRecDepth 400000 in
/-- C4 (amended): the first-brace-to-last-brace extraction lives in the
caller `try_parse` (`graph.py` `_plan_node`), which tolerates
leading/trailing prose and feeds `parse_spec` re-serialized JSON;
`parse_spec` itself JSON-parses its entire input, succeeding on the bare
object and failing on the prose-wrapped one; and even `try_parse`
returns `none` when the text between the braces is not valid JSON, so a
balanced brace pair alone does not guarantee success. -/
theorem parse_spec_no_extraction :
    try_parse c4proseInput = some c4expected ∧
    parse_spec c4bareInput = .ok ⟨"MyFlow", "Case", "Create", [], [defaultFlowAction]⟩ ∧
    (∃ e, parse_spec c4proseInput = .error e) ∧
    try_parse "\x7b not a json object \x7d" = none :=
  ⟨by rfl, by rfl, ⟨"Expecting value", by rfl⟩, by rfl⟩

/-- Inverting a successful `FlowSpec` validation: the actions field
validated into the actions of the result. -/
theorem FlowSpec_validate_actions (data : List (String × Json)) (spec : FlowSpec)
    (h : FlowSpec.validate data = .ok spec) :
    jsonToActList (aGetD data "actions" (.arr [])) = .ok spec.actions := by
  unfold FlowSpec.validate at h
  simp only [Bind.bind, Except.bind] at h
  cases h1 : coerceStr (aGetD data "flow_label" .null) with
  | error e => rw [h1] at h; simp at h
  | ok fl =>
    rw [h1] at h
    simp only [] at h
    split at h
    · simp only [pure, Except.pure] at h
      cases h2 : coerceStr (aGetD data "object_api" .null) with
      | error e => rw [h2] at h; simp at h
      | ok oa =>
        rw [h2] at h
        simp only [] at h
        cases h3 : coerceStr (aGetD data "trigger" .null) with
        | error e => rw [h3] at h; simp at h
        | ok tr =>
          rw [h3] at h
          simp only [] at h
          cases h4 : jsonToCondList (aGetD data "conditions" (.arr [])) with
          | error e => rw [h4] at h; simp at h
          | ok conds =>
            rw [h4] at h
            simp only [] at h
            cases h5 : jsonToActList (aGetD data "actions" (.arr [])) with
            | error e => rw [h5] at h; simp at h
            | ok acts =>
              rw [h5] at h
              simp only [pure, Except.pure, Except.ok.injEq] at h
              subst h
              rfl
    · simp [throw, throwThe, MonadExceptOf.throw] at h

/-- Inverting a successful `parse_spec` normalization: the actions of
the result come from validating the normalized list, with the default
dict substituted when that list is empty. -/
theorem parse_spec_data_actions (kvs : List (String × Json)) (spec : FlowSpec)
    (h : parse_spec_data (.obj kvs) = .ok spec) :
    ∃ na, normalize_actions (aGetD kvs "actions" (.arr [])) = .ok na ∧
      jsonToActList (.arr ((if na.isEmpty then [defaultActionDict] else na).map Json.obj)) =
        .ok spec.actions := by
  have hg1 : ∀ v : Json, aGetD (aUpdate "trigger" v kvs) "conditions" (.arr []) =
      aGetD kvs "conditions" (.arr []) := by
    intro v
    unfold aGetD
    rw [aLookup_aUpdate_ne _ _ _ (by decide)]
  have hg2 : ∀ (v w : Json) (l : List (String × Json)),
      aGetD (aUpdate "conditions" v (aUpdate "trigger" w l)) "actions" (.arr []) =
      aGetD l "actions" (.arr []) := by
    intro v w l
    unfold aGetD
    rw [aLookup_aUpdate_ne _ _ _ (by decide), aLookup_aUpdate_ne _ _ _ (by decide)]
  have hget : ∀ (v : Json) (l : List (String × Json)),
      aGetD (aUpdate "actions" v l) "actions" (.arr []) = v := by
    intro v l
    unfold aGetD
    rw [aLookup_aUpdate_eq]
    rfl
  unfold parse_spec_data at h
  simp only [Bind.bind, Except.bind, hg1, hg2] at h
  cases hconds : normalize_conditions (aGetD kvs "conditions" (.arr [])) with
  | error e => rw [hconds] at h; simp at h
  | ok conds =>
    rw [hconds] at h
    simp only [] at h
    cases hacts : normalize_actions (aGetD kvs "actions" (.arr [])) with
    | error e => rw [hacts] at h; simp at h
    | ok na =>
      rw [hacts] at h
      simp only [] at h
      refine ⟨na, rfl, ?_⟩
      have h2 := FlowSpec_validate_actions _ spec h
      rw [hget] at h2
      exact h2

/-- C1: whenever `parse_spec` returns a `FlowSpec`, its actions list is
non-empty, and whenever the normalized actions list is empty (actions
key absent, `[]`, or every entry unrecognized and dropped), the returned
actions list is exactly the single default create-task action (subject
`Automated Task`, due in 1 day, owner `record_owner`, what `record`,
status `Not Started`, priority `Normal`). -/
theorem parse_spec_default_action :
    ∀ (data : Json) (spec : FlowSpec), parse_spec_data data = .ok spec →
      spec.actions ≠ [] ∧
      (∀ kvs, data = .obj kvs →
        normalize_actions (aGetD kvs "actions" (.arr [])) = .ok [] →
        spec.actions = [defaultFlowAction]) := by
  intro data spec h
  cases data with
  | obj kvs =>
    obtain ⟨na, hna, hacts⟩ := parse_spec_data_actions kvs spec h
    constructor
    · have hacts2 := hacts
      simp only [jsonToActList] at hacts2
      have hlen := mapM_ok_length _ _ _ hacts2
      intro hnil
      rw [hnil] at hlen
      simp only [List.length_nil, List.length_map] at hlen
      cases hne : na.isEmpty
      · rw [hne] at hlen
        simp only [Bool.false_eq_true, if_false] at hlen
        rw [List.isEmpty_eq_false] at hne
        exact hne (List.length_eq_zero.mp hlen.symm)
      · rw [hne] at hlen
        simp at hlen
    · intro kvs2 heq hempty
      have hk : kvs = kvs2 := by injection heq
      subst hk
      rw [hna] at hempty
      have hna2 : na = [] := by
        simpa using hempty
      subst hna2
      simp only [List.isEmpty_nil, if_true] at hacts
      have hconc : jsonToActList (.arr ([defaultActionDict].map Json.obj)) =
          .ok [defaultFlowAction] := by rfl
      rw [hconc] at hacts
      simpa using hacts.symm
  | null => simp [parse_spec_data] at h
  | bool b => simp [parse_spec_data] at h
  | num n => simp [parse_spec_data] at h
  | str s => simp [parse_spec_data] at h
  | arr es => simp [parse_spec_data] at h

/-- C1 witness: a document with an explicit empty actions list. -/
theorem parse_spec_default_action_witness :
    parse_spec_data c1WitnessData =
      .ok (⟨"F1", "Case", "Create", [], [defaultFlowAction]⟩ : FlowSpec) ∧
    ([defaultFlowAction] : List FlowAction) ≠ [] ∧
    (⟨"F1", "Case", "Create", [], [defaultFlowAction]⟩ : FlowSpec).actions =
      [defaultFlowAction] := by
  have h := parse_spec_default_action c1WitnessData
    ⟨"F1", "Case", "Create", [], [defaultFlowAction]⟩ (by rfl)
  exact ⟨by rfl, h.1, h.2 _ rfl (by rfl)⟩
